import Mathlib

/-!
# retry-it: a shallow embedding of the retry executor

Sources embedded here: `config.go` (`Config`, `Option`, `defaultConfig`),
`operation.go` (the five `With…` options) and `do_retry.go` (`Do`,
`calculateNextDelay`).

Modelling conventions.

* `time.Duration` is a signed count of nanoseconds (`int64`); it is modelled by `Int`.
  Every value `calculateNextDelay` produces lies in the range of `int64`, because the
  conversion from `float64` is modelled with its range check.  The `int` arithmetic of
  the loop cannot overflow: `attempt++` and `cfg.MaxAttempts-1` are evaluated only when
  `attempt < cfg.MaxAttempts`.
* A finite `float64` is modelled by the rational number it denotes, and every `float64`
  operation of the source rounds its exact result to the nearest `float64`, ties to even
  (`roundFloat64`: 53-bit significand, gradual underflow below `2 ^ (-1022)`).  This is
  the arithmetic of the amd64 code Go generates: no fused multiply-add.  A rounded
  result of magnitude `2 ^ 1024` or more stands for an infinity; for finite fields and
  draws in `[0,1)` such a value can only arise in `calculateNextDelay` as the argument of
  a conversion to `time.Duration`.
  The fields `BackoffFactor` and `Jitter` of a `Config` and the random draws are
  rationals that stand for the nearest `float64` (so `1 / 10` is the constant `0.1`);
  NaN and infinite field values are outside the model.
* The conversion `time.Duration(x)` of a `float64` discards the fraction when the result
  fits `int64`; when it does not fit, Go leaves the result to the implementation, and
  the value of amd64, the smallest `int64`, is modelled.
* An `error` value is modelled by `GoError`; `nil` is `none`.
* The three external collaborators of `Do` are oracles collected in `Env`:
  the result of the k-th invocation of the operation, the k-th value returned by
  `rand.Float64()`, and the branch taken by the k-th `select` (cancellation or timer).
* A run of `Do` is its `Outcome` together with the trace of the events it performed.
-/

namespace RetryIt

/-! ## Data model (`config.go`) -/

/-- Type `time.Duration`: nanoseconds as a signed integer. -/
abbrev Duration := Int

/-- Constant `time.Millisecond`. -/
def Millisecond : Duration := 1000000

/-- Constant `time.Second`. -/
def Second : Duration := 1000000000

/-- Struct `Config` of `config.go`. -/
structure Config where
  MaxAttempts : Int
  InitialDelay : Duration
  MaxDelay : Duration
  BackoffFactor : ℚ
  Jitter : ℚ
  deriving DecidableEq

/-- Type `Option` of `config.go` (`func(*Config)`): the in-place mutation of the
pointed-to `Config` is rendered as a function from the old value to the new one.
It is called `ConfigOption` because `Option` is taken in Lean. -/
abbrev ConfigOption := Config → Config

/-- Variable `defaultConfig` of `config.go`. -/
def defaultConfig : Config where
  MaxAttempts := 5
  InitialDelay := 100 * Millisecond
  MaxDelay := 30 * Second
  BackoffFactor := 2
  Jitter := 1 / 10

/-! ## Options (`operation.go`) -/

/-- Option `WithMaxAttempts`: `c.MaxAttempts = attempts`. -/
def WithMaxAttempts (attempts : Int) : ConfigOption :=
  fun c => { c with MaxAttempts := attempts }

/-- Option `WithInitialDelay`: `c.InitialDelay = delay`. -/
def WithInitialDelay (delay : Duration) : ConfigOption :=
  fun c => { c with InitialDelay := delay }

/-- Option `WithMaxDelay`: `c.MaxDelay = delay`. -/
def WithMaxDelay (delay : Duration) : ConfigOption :=
  fun c => { c with MaxDelay := delay }

/-- Option `WithBackoffFactor`: `c.BackoffFactor = factor`. -/
def WithBackoffFactor (factor : ℚ) : ConfigOption :=
  fun c => { c with BackoffFactor := factor }

/-- Option `WithJitter`: `c.Jitter = jitter`. -/
def WithJitter (jitter : ℚ) : ConfigOption :=
  fun c => { c with Jitter := jitter }

/-- The first loop of `Do`: `cfg := defaultConfig; for _, opt := range opts { opt(&cfg) }`,
started from an arbitrary configuration. -/
def applyOptions (cfg : Config) (opts : List ConfigOption) : Config :=
  opts.foldl (fun c opt => opt c) cfg

/-! ## `float64` arithmetic -/

/-- Rounding of a rational to the nearest integer, ties to the even one. -/
def roundHalfEven (q : ℚ) : Int :=
  if q - ⌊q⌋ < 1 / 2 then ⌊q⌋
  else if 1 / 2 < q - ⌊q⌋ then ⌊q⌋ + 1
  else if ⌊q⌋ % 2 = 0 then ⌊q⌋ else ⌊q⌋ + 1

/-- The exponent `e` such that the `float64` values around `x` are the multiples of
`2 ^ e`: 52 below the binary exponent of `x`, and `-1074` in the subnormal range. -/
def float64Ulp (x : ℚ) : Int :=
  max (Int.log 2 |x| - 52) (-1074)

/-- The `float64` nearest to the exact value `x`, ties to even. -/
def roundFloat64 (x : ℚ) : ℚ :=
  (roundHalfEven (x / 2 ^ float64Ulp x) : ℚ) * 2 ^ float64Ulp x

/-- Conversion `float64(z)` of an integer. -/
def float64OfInt (z : Int) : ℚ :=
  roundFloat64 (z : ℚ)

/-- Product `a * b` of two `float64` values. -/
def float64Mul (a b : ℚ) : ℚ :=
  roundFloat64 (a * b)

/-- Sum `a + b` of two `float64` values. -/
def float64Add (a b : ℚ) : ℚ :=
  roundFloat64 (a + b)

/-- The smallest `int64`. -/
def MinInt64 : Int := -9223372036854775808

/-! ## Delay computation (`do_retry.go`, `calculateNextDelay`) -/

/-- Conversion `time.Duration(x)` of a `float64`: the fraction is discarded; a value
that does not fit `int64` gives the smallest `int64`. -/
def durationOfFloat (x : ℚ) : Duration :=
  if -(2 : ℚ) ^ 63 ≤ x ∧ x < 2 ^ 63 then (if 0 ≤ x then ⌊x⌋ else ⌈x⌉) else MinInt64

/-- Function `calculateNextDelay`; `r` is the value `rand.Float64()` returns if it is
called (it is called only when `cfg.Jitter > 0`). -/
def calculateNextDelay (currentDelay : Duration) (cfg : Config) (r : ℚ) : Duration :=
  let nextDelay :=
    durationOfFloat (float64Mul (float64OfInt currentDelay) (roundFloat64 cfg.BackoffFactor))
  let nextDelay := if nextDelay > cfg.MaxDelay then cfg.MaxDelay else nextDelay
  if roundFloat64 cfg.Jitter > 0 then
    let jitter := float64Mul (roundFloat64 r) (roundFloat64 cfg.Jitter)
    durationOfFloat (float64Mul (float64OfInt nextDelay) (float64Add 1 jitter))
  else
    nextDelay

/-! ## Errors, environment and runs -/

/-- Values of the Go interface `error` that occur in a run. -/
inductive GoError where
  /-- Value `context.Canceled`. -/
  | canceled
  /-- Value `context.DeadlineExceeded`. -/
  | deadlineExceeded
  /-- Any other error, identified by its message (`errors.New(msg)`). -/
  | errorString (msg : String)
  deriving DecidableEq, Repr

/-- Method `Error()`. -/
def GoError.Error : GoError → String
  | .canceled => "context canceled"
  | .deadlineExceeded => "context deadline exceeded"
  | .errorString msg => msg

/-- The collaborators of one call of `Do`, as oracles indexed from 0.
`op k` is what the k-th invocation of the operation returns (`none` is `nil`);
`rand k` is what `rand.Float64()` returns for the k-th delay computation;
`ctxDone k` tells which branch the k-th `select` takes: `some e` when
`<-ctx.Done()` is received first, `e` being `ctx.Err()`, and `none` when the timer
`time.After(delay)` fires first. -/
structure Env where
  op : Nat → Option GoError
  rand : Nat → ℚ
  ctxDone : Nat → Option GoError

/-- What `Do` does, step by step. -/
inductive Event where
  /-- One invocation `op(ctx)` and what it returned. -/
  | call (result : Option GoError)
  /-- One `select` on `ctx.Done()` and `time.After(delay)`, with the delay computed by
  `calculateNextDelay` just before and the cancellation error if that branch won. -/
  | wait (delay : Duration) (cancelled : Option GoError)
  deriving DecidableEq

/-- How a call of `Do` ends. -/
inductive Outcome where
  /-- Normal return of `err` (`none` is `nil`). -/
  | returned (err : Option GoError)
  /-- Run-time panic: `err.Error()` is called on a nil `error`. -/
  | panicked
  /-- The model ran out of fuel (never happens for `Do`, see `DoWith_outcome_ne_outOfFuel`). -/
  | outOfFuel
  deriving DecidableEq

/-- A run: the outcome and the events in the order they happened. -/
structure Run where
  outcome : Outcome
  trace : List Event
  deriving DecidableEq

/-- Put an event in front of a run. -/
def Run.after (e : Event) (r : Run) : Run :=
  ⟨r.outcome, e :: r.trace⟩

/-- Whether an event is an invocation of the operation. -/
def Event.isCall : Event → Bool
  | .call _ => true
  | .wait _ _ => false

/-- The delay of a wait event. -/
def Event.delay? : Event → Option Duration
  | .call _ => none
  | .wait d _ => some d

/-- Number of invocations of the operation in a run. -/
def Run.invocations (r : Run) : Nat :=
  r.trace.countP Event.isCall

/-- The delays computed by `calculateNextDelay` and handed to `time.After`, in order. -/
def Run.waits (r : Run) : List Duration :=
  r.trace.filterMap Event.delay?

/-! ## The retry loop (`do_retry.go`, `Do`) -/

/-- The tag of the final error of `Do`. -/
def exhaustedTag : String := "max retry attempts reached: "

/-- The statement after the loop:
`return errors.New("max retry attempts reached: " + err.Error())`. -/
def exhausted : Option GoError → Run
  | none => ⟨.panicked, []⟩
  | some e => ⟨.returned (some (.errorString (exhaustedTag ++ e.Error))), []⟩

/-- The `for` loop of `Do` from the test of its condition on, with the loop variable
`attempt` (never negative), the local variables `delay` and `err`, and a bound on the
number of iterations still to be modelled. -/
def doLoop (cfg : Config) (env : Env) :
    Nat → Nat → Duration → Option GoError → Run
  | 0, _, _, _ => ⟨.outOfFuel, []⟩
  | fuel + 1, attempt, delay, err =>
    if (attempt : Int) < cfg.MaxAttempts then
      match env.op attempt with
      | none => ⟨.returned none, [.call none]⟩
      | some e =>
        if (attempt : Int) = cfg.MaxAttempts - 1 then
          (exhausted (some e)).after (.call (some e))
        else
          let delay := calculateNextDelay delay cfg (env.rand attempt)
          match env.ctxDone attempt with
          | some ce => ⟨.returned (some ce), [.call (some e), .wait delay (some ce)]⟩
          | none =>
            ((doLoop cfg env fuel (attempt + 1) delay (some e)).after
              (.wait delay none)).after (.call (some e))
    else
      exhausted err

/-- Function `Do` once the options are applied: the loop runs at most
`cfg.MaxAttempts` times, so that many iterations and the final test are modelled. -/
def DoWith (cfg : Config) (env : Env) : Run :=
  doLoop cfg env (cfg.MaxAttempts.toNat + 1) 0 cfg.InitialDelay none

/-- Function `Do`. -/
def Do (env : Env) (opts : List ConfigOption) : Run :=
  DoWith (applyOptions defaultConfig opts) env

/-! ## Auxiliary definitions for the proofs -/

/-- Put a list of events in front of a run. -/
def Run.prepend (evs : List Event) (r : Run) : Run :=
  ⟨r.outcome, evs ++ r.trace⟩

/-- The value of the local variable `delay` of `Do` after `n` further delay
computations, the first of them made in iteration `attempt`. -/
def delayFrom (cfg : Config) (env : Env) : Nat → Duration → Nat → Duration
  | _, delay, 0 => delay
  | attempt, delay, n + 1 =>
    delayFrom cfg env (attempt + 1) (calculateNextDelay delay cfg (env.rand attempt)) n

/-- The value of the local variable `err` of `Do` after `n` further iterations in which
the operation was invoked, the first of them being iteration `attempt`. -/
def errFrom (env : Env) (attempt : Nat) (err : Option GoError) : Nat → Option GoError
  | 0 => err
  | n + 1 => env.op (attempt + n)

/-- The events of `n` consecutive iterations, starting with iteration `attempt`, in each
of which the operation is invoked and the timer of the wait fires. -/
def failedRounds (cfg : Config) (env : Env) : Nat → Duration → Nat → List Event
  | _, _, 0 => []
  | attempt, delay, n + 1 =>
    .call (env.op attempt) ::
      .wait (calculateNextDelay delay cfg (env.rand attempt)) none ::
        failedRounds cfg env (attempt + 1)
          (calculateNextDelay delay cfg (env.rand attempt)) n

/-- The value of `nextDelay` in `calculateNextDelay` after the cap and before the jitter
(lines 57 to 62 of `do_retry.go`). -/
def cappedDelay (currentDelay : Duration) (cfg : Config) : Duration :=
  let nextDelay :=
    durationOfFloat (float64Mul (float64OfInt currentDelay) (roundFloat64 cfg.BackoffFactor))
  if nextDelay > cfg.MaxDelay then cfg.MaxDelay else nextDelay

/-- What line 67 of `do_retry.go` computes from a capped delay `c` when the product
`rand.Float64() * cfg.Jitter` is replaced by `cfg.Jitter` itself:
`time.Duration(float64(c) * (1 + cfg.Jitter))`, that is `c * (1 + Jitter)` as `float64`
evaluates it. -/
def jitterCeiling (c : Duration) (cfg : Config) : Duration :=
  durationOfFloat (float64Mul (float64OfInt c) (float64Add 1 (roundFloat64 cfg.Jitter)))

/-- A rational that is a finite `float64`: `m * 2 ^ k` with a significand of at most 53
bits and an exponent in the range of the format. -/
def IsFloat64 (x : ℚ) : Prop :=
  ∃ m k : Int, |m| < 2 ^ 53 ∧ -1074 ≤ k ∧ k ≤ 971 ∧ x = (m : ℚ) * 2 ^ k

/-- The five options of `operation.go` as data: which option it is and its argument. -/
inductive OptionSpec where
  | maxAttempts (attempts : Int)
  | initialDelay (delay : Duration)
  | maxDelay (delay : Duration)
  | backoffFactor (factor : ℚ)
  | jitter (jitter : ℚ)
  deriving DecidableEq

/-- The option a description stands for. -/
def OptionSpec.toOption : OptionSpec → ConfigOption
  | .maxAttempts attempts => WithMaxAttempts attempts
  | .initialDelay delay => WithInitialDelay delay
  | .maxDelay delay => WithMaxDelay delay
  | .backoffFactor factor => WithBackoffFactor factor
  | .jitter j => WithJitter j

/-- The argument of a `WithMaxAttempts` option. -/
def OptionSpec.maxAttempts? : OptionSpec → Option Int
  | .maxAttempts attempts => some attempts
  | _ => none

/-- The argument of a `WithInitialDelay` option. -/
def OptionSpec.initialDelay? : OptionSpec → Option Duration
  | .initialDelay delay => some delay
  | _ => none

/-- The argument of a `WithMaxDelay` option. -/
def OptionSpec.maxDelay? : OptionSpec → Option Duration
  | .maxDelay delay => some delay
  | _ => none

/-- The argument of a `WithBackoffFactor` option. -/
def OptionSpec.backoffFactor? : OptionSpec → Option ℚ
  | .backoffFactor factor => some factor
  | _ => none

/-- The argument of a `WithJitter` option. -/
def OptionSpec.jitter? : OptionSpec → Option ℚ
  | .jitter j => some j
  | _ => none

/-- The argument of the last option of the list that targets the field selected by
`sel`, if there is one. -/
def lastArg {α : Type} (sel : OptionSpec → Option α) (specs : List OptionSpec) : Option α :=
  (specs.filterMap sel).getLast?

/-- Whether an event ends the loop early: a successful invocation, or a wait in which
the cancellation signal was received. -/
def Event.isStop : Event → Bool
  | .call none => true
  | .call (some _) => false
  | .wait _ (some _) => true
  | .wait _ none => false

/-- Nothing follows an event that ends the loop early. -/
def StopsLast (l : List Event) : Prop :=
  ∀ pre ev post, l = pre ++ ev :: post → ev.isStop = true → post = []

/-! ## The two `Config` variables of `Do` as a store

`Do` starts with `cfg := defaultConfig`, a copy of the package-level variable into a
local one (`Config` has only scalar fields), and hands `&cfg` to every option.  To speak
about what the options may write, both variables are kept in a store and an option is a
procedure that receives the address of a `Config`. -/

/-- The addresses a `*Config` can hold in `Do`: the package-level variable
`defaultConfig` and the local variable `cfg`. -/
inductive ConfigVar where
  | defaultConfig
  | cfg
  deriving DecidableEq

/-- The contents of the two variables. -/
structure Store where
  defaultConfig : Config
  cfg : Config
  deriving DecidableEq

/-- Read through a pointer. -/
def Store.read (s : Store) : ConfigVar → Config
  | .defaultConfig => s.defaultConfig
  | .cfg => s.cfg

/-- Write through a pointer. -/
def Store.write (s : Store) : ConfigVar → Config → Store
  | .defaultConfig, c => { s with defaultConfig := c }
  | .cfg, c => { s with cfg := c }

/-- An option as the procedure it is in Go: it gets a pointer and acts on the store. -/
abbrev OptionProc := ConfigVar → Store → Store

/-- The procedure of each of the five options of `operation.go`: one assignment to a
field of the pointed-to `Config`. -/
def OptionSpec.toProc (o : OptionSpec) : OptionProc :=
  fun c s => s.write c (o.toOption (s.read c))

/-- Lines 15 to 18 of `Do`: `cfg := defaultConfig`, then `opt(&cfg)` for every option in
order. -/
def buildConfig (s : Store) (opts : List OptionProc) : Store :=
  opts.foldl (fun s opt => opt .cfg s) (s.write .cfg s.defaultConfig)

/-! ## Concrete environments used to instantiate the theorems -/

/-- An operation that always fails, under a context that is already cancelled on entry:
every `select` receives from `ctx.Done()`. -/
def alreadyCancelled : Env where
  op := fun _ => some (.errorString "error")
  rand := fun _ => 0
  ctxDone := fun _ => some .canceled

/-- An operation that fails with the same message on every invocation, under a context
that is never cancelled; every random draw is `r`. -/
def alwaysFailing (msg : String) (r : ℚ) : Env where
  op := fun _ => some (.errorString msg)
  rand := fun _ => r
  ctxDone := fun _ => none

/-- An operation that fails on its first `n` invocations and succeeds afterwards
(`TestDo/Retry until success` has `n = 2`), under a context that is never cancelled. -/
def failsThenSucceeds (n : Nat) : Env where
  op := fun i => if i < n then some (.errorString "temporary error") else none
  rand := fun _ => 0
  ctxDone := fun _ => none

/-- An operation that always fails, under a context whose cancellation is received by
the `select` of iteration `j` (`TestDo/Context cancellation` has `j = 0`). -/
def cancelledAt (j : Nat) : Env where
  op := fun _ => some (.errorString "slow operation")
  rand := fun _ => 0
  ctxDone := fun i => if i = j then some .canceled else none

/-- An operation whose k-th invocation (from 0) fails with the message `"error k"`. -/
def numberedErrors : Env where
  op := fun i => some (.errorString ("error " ++ toString i))
  rand := fun _ => 0
  ctxDone := fun _ => none

/-! ## General lemmas about the loop -/

theorem Run.prepend_nil (r : Run) : r.prepend [] = r := rfl

theorem Run.after_after_prepend (a b : Event) (evs : List Event) (r : Run) :
    ((r.prepend evs).after b).after a = r.prepend (a :: b :: evs) := rfl

theorem Run.invocations_prepend (evs : List Event) (r : Run) :
    (r.prepend evs).invocations = evs.countP Event.isCall + r.invocations := by
  simp [Run.prepend, Run.invocations, List.countP_append]

theorem Run.waits_prepend (evs : List Event) (r : Run) :
    (r.prepend evs).waits = evs.filterMap Event.delay? ++ r.waits := by
  simp [Run.prepend, Run.waits, List.filterMap_append]

theorem Run.outcome_prepend (evs : List Event) (r : Run) :
    (r.prepend evs).outcome = r.outcome := rfl

theorem failedRounds_countP (cfg : Config) (env : Env) (n : Nat) :
    ∀ attempt delay, (failedRounds cfg env attempt delay n).countP Event.isCall = n := by
  induction n with
  | zero => intro attempt delay; rfl
  | succ n ih =>
    intro attempt delay
    simp [failedRounds, Event.isCall, ih]

theorem failedRounds_waits_length (cfg : Config) (env : Env) (n : Nat) :
    ∀ attempt delay,
      ((failedRounds cfg env attempt delay n).filterMap Event.delay?).length = n := by
  induction n with
  | zero => intro attempt delay; rfl
  | succ n ih =>
    intro attempt delay
    simp [failedRounds, Event.delay?, ih]

/-- Unfolding of `n` iterations in which the operation fails, the attempt is not the last
one and the timer of the wait fires before any cancellation. -/
theorem doLoop_failedRounds (cfg : Config) (env : Env) (n : Nat) :
    ∀ (fuel attempt : Nat) (delay : Duration) (err : Option GoError),
      (∀ i, attempt ≤ i → i < attempt + n → env.op i ≠ none ∧ env.ctxDone i = none) →
      ((attempt + n : Nat) : Int) < cfg.MaxAttempts →
      doLoop cfg env (fuel + n) attempt delay err =
        (doLoop cfg env fuel (attempt + n) (delayFrom cfg env attempt delay n)
          (errFrom env attempt err n)).prepend (failedRounds cfg env attempt delay n) := by
  induction n with
  | zero => intro fuel attempt delay err _ _; rfl
  | succ n ih =>
    intro fuel attempt delay err h hlt
    obtain ⟨hop, hctx⟩ := h attempt (Nat.le_refl _) (by omega)
    obtain ⟨e, he⟩ := Option.ne_none_iff_exists'.mp hop
    have h1 : (attempt : Int) < cfg.MaxAttempts := by push_cast at hlt; omega
    have h2 : ¬ (attempt : Int) = cfg.MaxAttempts - 1 := by push_cast at hlt; omega
    have hrest := ih fuel (attempt + 1) (calculateNextDelay delay cfg (env.rand attempt))
      (some e) (fun i hi hi2 => h i (by omega) (by omega))
      (by push_cast at hlt ⊢; omega)
    have herr : errFrom env (attempt + 1) (some e) n = errFrom env attempt err (n + 1) := by
      cases n with
      | zero => simp [errFrom, he]
      | succ m => simp [errFrom, Nat.add_assoc, Nat.add_comm 1 m]
    have hfuel : fuel + (n + 1) = (fuel + n) + 1 := rfl
    rw [hfuel, doLoop, if_pos h1, he]
    simp only [if_neg h2, hctx]
    rw [hrest, Run.after_after_prepend, herr]
    simp only [failedRounds, delayFrom, he, Nat.add_assoc, Nat.add_comm 1 n]

/-- The model of the loop is given enough fuel: `Do` always ends by a return or a panic. -/
theorem doLoop_outcome_ne_outOfFuel (cfg : Config) (env : Env) :
    ∀ (fuel attempt : Nat) (delay : Duration) (err : Option GoError),
      (cfg.MaxAttempts - attempt).toNat < fuel →
      (doLoop cfg env fuel attempt delay err).outcome ≠ .outOfFuel := by
  intro fuel
  induction fuel with
  | zero => intro attempt delay err h; omega
  | succ fuel ih =>
    intro attempt delay err h
    rw [doLoop]
    split_ifs with h1 h2
    · cases hop : env.op attempt with
      | none => simp
      | some e => simp [exhausted, Run.after]
    · cases hop : env.op attempt with
      | none => simp
      | some e =>
        cases hctx : env.ctxDone attempt with
        | some ce => simp
        | none =>
          simp only [Run.after]
          exact ih _ _ _ (by push_cast; omega)
    · cases err <;> simp [exhausted]

theorem DoWith_outcome_ne_outOfFuel (cfg : Config) (env : Env) :
    (DoWith cfg env).outcome ≠ .outOfFuel :=
  doLoop_outcome_ne_outOfFuel cfg env _ 0 _ _ (by simp)

/-- The iteration in which the operation succeeds. -/
theorem doLoop_success (cfg : Config) (env : Env) (fuel attempt : Nat) (delay : Duration)
    (err : Option GoError) (hlt : (attempt : Int) < cfg.MaxAttempts)
    (hop : env.op attempt = none) :
    doLoop cfg env (fuel + 1) attempt delay err = ⟨.returned none, [.call none]⟩ := by
  rw [doLoop, if_pos hlt, hop]

/-- The last permitted iteration when the operation fails in it. -/
theorem doLoop_last (cfg : Config) (env : Env) (fuel attempt : Nat) (delay : Duration)
    (err : Option GoError) (e : GoError) (hlast : (attempt : Int) = cfg.MaxAttempts - 1)
    (hop : env.op attempt = some e) :
    doLoop cfg env (fuel + 1) attempt delay err =
      (exhausted (some e)).after (.call (some e)) := by
  have hlt : (attempt : Int) < cfg.MaxAttempts := by omega
  rw [doLoop, if_pos hlt, hop]
  simp only [if_pos hlast]

/-- An iteration, not the last one, whose wait is ended by the cancellation signal. -/
theorem doLoop_cancelled (cfg : Config) (env : Env) (fuel attempt : Nat) (delay : Duration)
    (err : Option GoError) (e ce : GoError) (hlt : (attempt : Int) + 1 < cfg.MaxAttempts)
    (hop : env.op attempt = some e) (hctx : env.ctxDone attempt = some ce) :
    doLoop cfg env (fuel + 1) attempt delay err =
      ⟨.returned (some ce),
        [.call (some e), .wait (calculateNextDelay delay cfg (env.rand attempt)) (some ce)]⟩ := by
  have h1 : (attempt : Int) < cfg.MaxAttempts := by omega
  have h2 : ¬ (attempt : Int) = cfg.MaxAttempts - 1 := by omega
  rw [doLoop, if_pos h1, hop]
  simp only [if_neg h2, hctx]

/-- The loop condition fails: the statement after the loop is executed. -/
theorem doLoop_done (cfg : Config) (env : Env) (fuel attempt : Nat) (delay : Duration)
    (err : Option GoError) (hge : ¬ (attempt : Int) < cfg.MaxAttempts) :
    doLoop cfg env (fuel + 1) attempt delay err = exhausted err := by
  rw [doLoop, if_neg hge]

/-- An iteration, not the last one, in which the operation fails and the timer fires. -/
theorem doLoop_continue (cfg : Config) (env : Env) (fuel attempt : Nat) (delay : Duration)
    (err : Option GoError) (e : GoError) (hlt : (attempt : Int) + 1 < cfg.MaxAttempts)
    (hop : env.op attempt = some e) (hctx : env.ctxDone attempt = none) :
    doLoop cfg env (fuel + 1) attempt delay err =
      ((doLoop cfg env fuel (attempt + 1) (calculateNextDelay delay cfg (env.rand attempt))
        (some e)).after (.wait (calculateNextDelay delay cfg (env.rand attempt)) none)).after
        (.call (some e)) := by
  have h1 : (attempt : Int) < cfg.MaxAttempts := by omega
  have h2 : ¬ (attempt : Int) = cfg.MaxAttempts - 1 := by omega
  rw [doLoop, if_pos h1, hop]
  simp only [if_neg h2, hctx]

/-- The five ways one pass through the loop can go. -/
theorem doLoop_cases (cfg : Config) (env : Env) (fuel attempt : Nat) (delay : Duration)
    (err : Option GoError) :
    (¬ (attempt : Int) < cfg.MaxAttempts ∧
        doLoop cfg env (fuel + 1) attempt delay err = exhausted err) ∨
      ((attempt : Int) < cfg.MaxAttempts ∧ env.op attempt = none ∧
        doLoop cfg env (fuel + 1) attempt delay err = ⟨.returned none, [.call none]⟩) ∨
      (∃ e, (attempt : Int) = cfg.MaxAttempts - 1 ∧ env.op attempt = some e ∧
        doLoop cfg env (fuel + 1) attempt delay err =
          (exhausted (some e)).after (.call (some e))) ∨
      (∃ e ce, (attempt : Int) + 1 < cfg.MaxAttempts ∧ env.op attempt = some e ∧
        env.ctxDone attempt = some ce ∧
        doLoop cfg env (fuel + 1) attempt delay err =
          ⟨.returned (some ce),
            [.call (some e),
              .wait (calculateNextDelay delay cfg (env.rand attempt)) (some ce)]⟩) ∨
      (∃ e, (attempt : Int) + 1 < cfg.MaxAttempts ∧ env.op attempt = some e ∧
        env.ctxDone attempt = none ∧
        doLoop cfg env (fuel + 1) attempt delay err =
          ((doLoop cfg env fuel (attempt + 1)
            (calculateNextDelay delay cfg (env.rand attempt)) (some e)).after
            (.wait (calculateNextDelay delay cfg (env.rand attempt)) none)).after
            (.call (some e))) := by
  by_cases hlt : (attempt : Int) < cfg.MaxAttempts
  · cases hop : env.op attempt with
    | none => exact Or.inr (Or.inl ⟨hlt, rfl, doLoop_success cfg env fuel attempt delay err hlt hop⟩)
    | some e =>
      by_cases hlast : (attempt : Int) = cfg.MaxAttempts - 1
      · exact Or.inr (Or.inr (Or.inl
          ⟨e, hlast, rfl, doLoop_last cfg env fuel attempt delay err e hlast hop⟩))
      · have h1 : (attempt : Int) + 1 < cfg.MaxAttempts := by omega
        cases hctx : env.ctxDone attempt with
        | some ce =>
          exact Or.inr (Or.inr (Or.inr (Or.inl
            ⟨e, ce, h1, rfl, rfl, doLoop_cancelled cfg env fuel attempt delay err e ce h1 hop hctx⟩)))
        | none =>
          exact Or.inr (Or.inr (Or.inr (Or.inr
            ⟨e, h1, rfl, rfl, doLoop_continue cfg env fuel attempt delay err e h1 hop hctx⟩)))
  · exact Or.inl ⟨hlt, doLoop_done cfg env fuel attempt delay err hlt⟩

theorem Run.waits_after_call (x : Option GoError) (r : Run) :
    (r.after (.call x)).waits = r.waits := rfl

theorem Run.waits_after_wait (d : Duration) (c : Option GoError) (r : Run) :
    (r.after (.wait d c)).waits = d :: r.waits := rfl

theorem Run.invocations_after_call (x : Option GoError) (r : Run) :
    (r.after (.call x)).invocations = r.invocations + 1 := by
  simp [Run.after, Run.invocations, Event.isCall]

theorem Run.invocations_after_wait (d : Duration) (c : Option GoError) (r : Run) :
    (r.after (.wait d c)).invocations = r.invocations := by
  simp [Run.after, Run.invocations, Event.isCall]

theorem exhausted_trace (err : Option GoError) : (exhausted err).trace = [] := by
  cases err <;> rfl

/-- Every wait of the loop is computed by `calculateNextDelay` from the wait before it,
the first one from the value of `delay` on entry. -/
theorem doLoop_waits_chain (cfg : Config) (env : Env) :
    ∀ (fuel attempt : Nat) (delay : Duration) (err : Option GoError),
      List.Chain (fun a b => ∃ i, b = calculateNextDelay a cfg (env.rand i)) delay
        (doLoop cfg env fuel attempt delay err).waits := by
  intro fuel
  induction fuel with
  | zero => intro attempt delay err; exact List.Chain.nil
  | succ fuel ih =>
    intro attempt delay err
    rcases doLoop_cases cfg env fuel attempt delay err with
      ⟨_, h⟩ | ⟨_, _, h⟩ | ⟨e, _, _, h⟩ | ⟨e, ce, _, _, _, h⟩ | ⟨e, _, _, _, h⟩
    · rw [h]; simp [Run.waits, exhausted_trace]
    · rw [h]; simp [Run.waits, Event.delay?]
    · rw [h, Run.waits_after_call]; simp [Run.waits, exhausted_trace]
    · rw [h]
      simp only [Run.waits, List.filterMap_cons, Event.delay?, List.filterMap_nil]
      exact List.Chain.cons ⟨attempt, rfl⟩ List.Chain.nil
    · rw [h, Run.waits_after_call, Run.waits_after_wait]
      exact List.Chain.cons ⟨attempt, rfl⟩ (ih _ _ _)

theorem chain_forall {α : Type} (R : α → α → Prop) (P : α → Prop)
    (hstep : ∀ x y, P x → R x y → P y) :
    ∀ (l : List α) (a : α), P a → List.Chain R a l → ∀ w ∈ l, P w := by
  intro l
  induction l with
  | nil => intro a _ _ w hw; simp at hw
  | cons b l ih =>
    intro a ha hc w hw
    rw [List.chain_cons] at hc
    have hb : P b := hstep a b ha hc.1
    rcases List.mem_cons.mp hw with rfl | hw
    · exact hb
    · exact ih b hb hc.2 w hw

/-- The run of `Do` when the first `N = MaxAttempts` invocations all fail and no wait is
cancelled. -/
theorem DoWith_all_fail (cfg : Config) (env : Env) (N : Nat) (e : GoError) (hN : 0 < N)
    (hM : cfg.MaxAttempts = N) (hfail : ∀ i, i < N → env.op i ≠ none)
    (hctx : ∀ i, i + 1 < N → env.ctxDone i = none) (hlast : env.op (N - 1) = some e) :
    DoWith cfg env =
      ((exhausted (some e)).after (.call (some e))).prepend
        (failedRounds cfg env 0 cfg.InitialDelay (N - 1)) := by
  have hfuel : cfg.MaxAttempts.toNat + 1 = 2 + (N - 1) := by rw [hM]; simp; omega
  unfold DoWith
  rw [hfuel, doLoop_failedRounds cfg env (N - 1) 2 0 cfg.InitialDelay none
    (fun i _ hi => ⟨hfail i (by omega), hctx i (by omega)⟩) (by rw [hM]; push_cast; omega)]
  rw [doLoop_last cfg env 1 (0 + (N - 1)) _ _ e (by rw [hM]; push_cast; omega)
    (by rw [Nat.zero_add]; exact hlast)]

/-- The run of `Do` when the operation fails `k - 1` times and then succeeds, with no
wait cancelled before. -/
theorem DoWith_success_at (cfg : Config) (env : Env) (k : Nat) (hk : 1 ≤ k)
    (hle : (k : Int) ≤ cfg.MaxAttempts) (hfail : ∀ i, i + 1 < k → env.op i ≠ none)
    (hsucc : env.op (k - 1) = none) (hctx : ∀ i, i + 1 < k → env.ctxDone i = none) :
    DoWith cfg env =
      (⟨.returned none, [.call none]⟩ : Run).prepend
        (failedRounds cfg env 0 cfg.InitialDelay (k - 1)) := by
  have hfuel : cfg.MaxAttempts.toNat + 1 = (cfg.MaxAttempts.toNat + 1 - k + 1) + (k - 1) := by
    omega
  unfold DoWith
  rw [hfuel, doLoop_failedRounds cfg env (k - 1) _ 0 cfg.InitialDelay none
    (fun i _ hi => ⟨hfail i (by omega), hctx i (by omega)⟩) (by push_cast; omega)]
  rw [doLoop_success cfg env _ (0 + (k - 1)) _ _ (by push_cast; omega)
    (by rw [Nat.zero_add]; exact hsucc)]

/-- The run of `Do` when the operation fails in iterations `0..j`, iteration `j` is not
the last one, and the wait of iteration `j` is the first one ended by cancellation. -/
theorem DoWith_cancelled_at (cfg : Config) (env : Env) (j : Nat) (e ce : GoError)
    (hj : (j : Int) + 1 < cfg.MaxAttempts) (hfail : ∀ i, i < j → env.op i ≠ none)
    (hop : env.op j = some e) (hbefore : ∀ i, i < j → env.ctxDone i = none)
    (hcancel : env.ctxDone j = some ce) :
    DoWith cfg env =
      (⟨.returned (some ce),
        [.call (some e),
          .wait (calculateNextDelay (delayFrom cfg env 0 cfg.InitialDelay j) cfg (env.rand j))
            (some ce)]⟩ : Run).prepend
        (failedRounds cfg env 0 cfg.InitialDelay j) := by
  have hfuel : cfg.MaxAttempts.toNat + 1 = (cfg.MaxAttempts.toNat - j + 1) + j := by omega
  unfold DoWith
  rw [hfuel, doLoop_failedRounds cfg env j _ 0 cfg.InitialDelay none
    (fun i _ hi => ⟨hfail i (by omega), hbefore i (by omega)⟩) (by push_cast; omega)]
  rw [doLoop_cancelled cfg env _ (0 + j) _ _ e ce (by push_cast; omega)
    (by rw [Nat.zero_add]; exact hop) (by rw [Nat.zero_add]; exact hcancel)]
  simp only [Nat.zero_add]

/-! ## Lemmas about `float64` rounding -/

theorem roundHalfEven_floor_le (q : ℚ) : ⌊q⌋ ≤ roundHalfEven q := by
  unfold roundHalfEven
  split_ifs <;> omega

theorem roundHalfEven_le_floor_add_one (q : ℚ) : roundHalfEven q ≤ ⌊q⌋ + 1 := by
  unfold roundHalfEven
  split_ifs <;> omega

theorem roundHalfEven_intCast (z : Int) : roundHalfEven (z : ℚ) = z := by
  unfold roundHalfEven
  simp

theorem le_roundHalfEven (n : Int) (q : ℚ) (h : (n : ℚ) ≤ q) : n ≤ roundHalfEven q :=
  le_trans (Int.le_floor.mpr h) (roundHalfEven_floor_le q)

theorem roundHalfEven_le (n : Int) (q : ℚ) (h : q ≤ (n : ℚ)) : roundHalfEven q ≤ n := by
  rcases lt_or_eq_of_le h with hlt | heq
  · have hf : ⌊q⌋ < n := Int.floor_lt.mpr hlt
    have := roundHalfEven_le_floor_add_one q
    omega
  · rw [heq, roundHalfEven_intCast]

theorem roundHalfEven_mono {q q' : ℚ} (h : q ≤ q') : roundHalfEven q ≤ roundHalfEven q' := by
  rcases lt_or_eq_of_le (Int.floor_mono h) with hlt | heq
  · have h1 := roundHalfEven_le_floor_add_one q
    have h2 := roundHalfEven_floor_le q'
    omega
  · unfold roundHalfEven
    rw [heq]
    split_ifs <;> first | omega | linarith

theorem roundHalfEven_eq_of_near (m : Int) (q : ℚ) (h1 : (m : ℚ) - 1 / 2 < q)
    (h2 : q < (m : ℚ) + 1 / 2) : roundHalfEven q = m := by
  have hfl := Int.floor_le q
  have hlt := Int.lt_floor_add_one q
  unfold roundHalfEven
  rcases le_or_lt (m : ℚ) q with hmq | hqm
  · have hf : ⌊q⌋ = m := Int.floor_eq_iff.mpr ⟨hmq, by linarith⟩
    rw [hf, if_pos (by linarith)]
  · have hf : ⌊q⌋ = m - 1 := Int.floor_eq_iff.mpr ⟨by push_cast; linarith, by push_cast; linarith⟩
    rw [hf]
    have hc : ((m - 1 : Int) : ℚ) = (m : ℚ) - 1 := by push_cast; ring
    rw [hc, if_neg (by linarith), if_pos (by linarith)]
    ring

theorem float64Ulp_ge (x : ℚ) : -1074 ≤ float64Ulp x := le_max_right _ _

theorem two_zpow_pos (k : Int) : (0 : ℚ) < 2 ^ k := zpow_pos (by norm_num) k

theorem two_zpow_le {a b : Int} (h : a ≤ b) : (2 : ℚ) ^ a ≤ 2 ^ b :=
  zpow_le_zpow_right₀ (by norm_num) h

theorem two_zpow_lt_iff {a b : Int} : (2 : ℚ) ^ a < 2 ^ b ↔ a < b :=
  zpow_lt_zpow_iff_right₀ (by norm_num)

theorem abs_lt_zpow_float64Ulp (x : ℚ) : |x| < 2 ^ (float64Ulp x + 53) := by
  have h1 : |x| < (2 : ℚ) ^ (Int.log 2 |x| + 1) := by
    exact_mod_cast Int.lt_zpow_succ_log_self (b := 2) (by norm_num) |x|
  refine lt_of_lt_of_le h1 (two_zpow_le ?_)
  unfold float64Ulp
  have := le_max_left (Int.log 2 |x| - 52) (-1074)
  omega

theorem zpow_le_abs_of_float64Ulp (x : ℚ) (hx : x ≠ 0) (h : -1074 < float64Ulp x) :
    2 ^ (float64Ulp x + 52) ≤ |x| := by
  have hpos : 0 < |x| := abs_pos.mpr hx
  have h1 : (2 : ℚ) ^ Int.log 2 |x| ≤ |x| := by
    exact_mod_cast Int.zpow_log_le_self (b := 2) (by norm_num) hpos
  have he : float64Ulp x + 52 = Int.log 2 |x| := by
    unfold float64Ulp at h ⊢
    rcases max_cases (Int.log 2 |x| - 52) (-1074) with ⟨h2, _⟩ | ⟨h2, _⟩
    · rw [h2]; omega
    · rw [h2] at h; omega
  rw [he]
  exact h1

theorem float64Ulp_mono {x y : ℚ} (hx : x ≠ 0) (h : |x| ≤ |y|) : float64Ulp x ≤ float64Ulp y := by
  unfold float64Ulp
  have := Int.log_mono_right (b := 2) (abs_pos.mpr hx) h
  exact max_le_max (by omega) (le_refl _)

theorem float64Ulp_eq (x : ℚ) (e : Int) (he : -1074 ≤ e) (hlo : (2 : ℚ) ^ (e + 52) ≤ |x|)
    (hhi : |x| < 2 ^ (e + 53)) : float64Ulp x = e := by
  have hpos : 0 < |x| := lt_of_lt_of_le (two_zpow_pos _) hlo
  have h1 : e + 52 ≤ Int.log 2 |x| :=
    (Int.zpow_le_iff_le_log (b := 2) (by norm_num) hpos).mp (by exact_mod_cast hlo)
  have h2 : Int.log 2 |x| < e + 53 :=
    (Int.lt_zpow_iff_log_lt (b := 2) (by norm_num) hpos).mp (by exact_mod_cast hhi)
  unfold float64Ulp
  have h3 : Int.log 2 |x| - 52 = e := by omega
  rw [h3]
  exact max_eq_left he

theorem roundFloat64_zero : roundFloat64 0 = 0 := by
  simp [roundFloat64, roundHalfEven]

theorem roundFloat64_nonneg {x : ℚ} (h : 0 ≤ x) : 0 ≤ roundFloat64 x := by
  unfold roundFloat64
  have hq : (0 : ℚ) ≤ x / 2 ^ float64Ulp x := div_nonneg h (le_of_lt (two_zpow_pos _))
  have hn : (0 : Int) ≤ roundHalfEven (x / 2 ^ float64Ulp x) :=
    le_roundHalfEven 0 _ (by simpa using hq)
  exact mul_nonneg (by exact_mod_cast hn) (le_of_lt (two_zpow_pos _))

theorem roundFloat64_nonpos {x : ℚ} (h : x ≤ 0) : roundFloat64 x ≤ 0 := by
  unfold roundFloat64
  have hq : x / 2 ^ float64Ulp x ≤ (0 : ℚ) := div_nonpos_of_nonpos_of_nonneg h (le_of_lt (two_zpow_pos _))
  have hn : roundHalfEven (x / 2 ^ float64Ulp x) ≤ (0 : Int) :=
    roundHalfEven_le 0 _ (by simpa using hq)
  exact mul_nonpos_of_nonpos_of_nonneg (by exact_mod_cast hn) (le_of_lt (two_zpow_pos _))

/-- A value `m * 2 ^ k` with `|m| < 2 ^ 53` and `k ≥ -1074` is a float64: rounding keeps it. -/
theorem roundFloat64_of_dyadic (m k : Int) (hm : |m| < 2 ^ 53) (hk : -1074 ≤ k) :
    roundFloat64 ((m : ℚ) * 2 ^ k) = (m : ℚ) * 2 ^ k := by
  by_cases hm0 : m = 0
  · rw [hm0]; simp [roundFloat64_zero]
  have hx : (m : ℚ) * 2 ^ k ≠ 0 :=
    mul_ne_zero (by exact_mod_cast hm0) (ne_of_gt (two_zpow_pos k))
  have hek : float64Ulp ((m : ℚ) * 2 ^ k) ≤ k := by
    by_contra hcon
    have hgt : -1074 < float64Ulp ((m : ℚ) * 2 ^ k) := by omega
    have h1 := zpow_le_abs_of_float64Ulp _ hx hgt
    have habs : |(m : ℚ) * 2 ^ k| < 2 ^ (k + 53) := by
      rw [abs_mul, abs_of_pos (two_zpow_pos k), zpow_add₀ (by norm_num : (2 : ℚ) ≠ 0), mul_comm]
      have hmq : |(m : ℚ)| < 2 ^ (53 : ℕ) := by exact_mod_cast hm
      have : (2 : ℚ) ^ (53 : Int) = 2 ^ (53 : ℕ) := by norm_num
      rw [this]
      exact mul_lt_mul_of_pos_left hmq (two_zpow_pos k)
    have h2 := two_zpow_lt_iff.mp (lt_of_le_of_lt h1 habs)
    omega
  obtain ⟨n, hn⟩ := Int.eq_ofNat_of_zero_le (sub_nonneg.mpr hek)
  unfold roundFloat64
  have hdiv : (m : ℚ) * 2 ^ k / 2 ^ float64Ulp ((m : ℚ) * 2 ^ k) = ((m * 2 ^ n : Int) : ℚ) := by
    rw [mul_div_assoc, ← zpow_sub₀ (by norm_num : (2 : ℚ) ≠ 0), hn]
    push_cast
    rw [zpow_natCast]
  rw [hdiv, roundHalfEven_intCast]
  have hk2 : k = (n : Int) + float64Ulp ((m : ℚ) * 2 ^ k) := by omega
  push_cast
  rw [mul_assoc, ← zpow_natCast, ← zpow_add₀ (by norm_num : (2 : ℚ) ≠ 0), ← hk2]

theorem roundFloat64_intCast (z : Int) (h : |z| ≤ 2 ^ 53) : roundFloat64 (z : ℚ) = z := by
  rcases lt_or_eq_of_le h with hlt | heq
  · have := roundFloat64_of_dyadic z 0 hlt (by decide)
    simpa using this
  · rcases abs_eq (by norm_num : (0 : Int) ≤ 2 ^ 53) |>.mp heq with h1 | h1
    · have := roundFloat64_of_dyadic (2 ^ 52) 1 (by norm_num) (by decide)
      rw [h1]
      norm_num at this ⊢
      exact this
    · have := roundFloat64_of_dyadic (-2 ^ 52) 1 (by norm_num) (by decide)
      rw [h1]
      norm_num at this ⊢
      exact this

theorem roundFloat64_eq_of_near (x : ℚ) (m e : Int) (he : -1074 ≤ e)
    (hlo : (2 : ℚ) ^ (e + 52) ≤ |x|) (hhi : |x| < 2 ^ (e + 53))
    (h1 : (m : ℚ) - 1 / 2 < x / 2 ^ e) (h2 : x / 2 ^ e < (m : ℚ) + 1 / 2) :
    roundFloat64 x = (m : ℚ) * 2 ^ e := by
  unfold roundFloat64
  rw [float64Ulp_eq x e he hlo hhi, roundHalfEven_eq_of_near m _ h1 h2]

/-- The mantissa chosen by the rounding has at most 53 bits. -/
theorem abs_mantissa_le (x : ℚ) : |roundHalfEven (x / 2 ^ float64Ulp x)| ≤ 2 ^ 53 := by
  have hlt := abs_lt_zpow_float64Ulp x
  have hq : |x / 2 ^ float64Ulp x| < (2 : ℚ) ^ (53 : ℕ) := by
    rw [abs_div, abs_of_pos (two_zpow_pos _), div_lt_iff₀ (two_zpow_pos _)]
    rw [zpow_add₀ (by norm_num : (2 : ℚ) ≠ 0), mul_comm] at hlt
    have : (2 : ℚ) ^ (53 : Int) = 2 ^ (53 : ℕ) := by norm_num
    rw [this] at hlt
    exact hlt
  have hb := abs_lt.mp hq
  have h1 : (-(2 ^ 53) : Int) ≤ roundHalfEven (x / 2 ^ float64Ulp x) :=
    le_roundHalfEven _ _ (by push_cast; exact le_of_lt hb.1)
  have h2 : roundHalfEven (x / 2 ^ float64Ulp x) ≤ (2 ^ 53 : Int) :=
    roundHalfEven_le _ _ (by push_cast; exact le_of_lt hb.2)
  exact abs_le.mpr ⟨h1, h2⟩

theorem roundFloat64_idem (x : ℚ) : roundFloat64 (roundFloat64 x) = roundFloat64 x := by
  have hm := abs_mantissa_le x
  have he := float64Ulp_ge x
  have hval : roundFloat64 x =
      (roundHalfEven (x / 2 ^ float64Ulp x) : ℚ) * 2 ^ float64Ulp x := rfl
  rcases lt_or_eq_of_le hm with hlt | heq
  · rw [hval]
    exact roundFloat64_of_dyadic _ _ hlt he
  · have h2 : (2 : ℚ) ^ (float64Ulp x + 1) = 2 * 2 ^ float64Ulp x := by
      rw [zpow_add₀ (by norm_num : (2 : ℚ) ≠ 0), zpow_one, mul_comm]
    rcases abs_eq (by norm_num : (0 : Int) ≤ 2 ^ 53) |>.mp heq with h1 | h1
    · have hd := roundFloat64_of_dyadic (2 ^ 52) (float64Ulp x + 1) (by norm_num) (by omega)
      have hx : roundFloat64 x = ((2 ^ 52 : Int) : ℚ) * 2 ^ (float64Ulp x + 1) := by
        rw [hval, h1, h2]
        push_cast
        ring
      rw [hx]
      exact hd
    · have hd := roundFloat64_of_dyadic (-2 ^ 52) (float64Ulp x + 1) (by norm_num) (by omega)
      have hx : roundFloat64 x = ((-2 ^ 52 : Int) : ℚ) * 2 ^ (float64Ulp x + 1) := by
        rw [hval, h1, h2]
        push_cast
        ring
      rw [hx]
      exact hd

theorem roundFloat64_mono_pos {x y : ℚ} (hx : 0 < x) (h : x ≤ y) :
    roundFloat64 x ≤ roundFloat64 y := by
  have hy : 0 < y := lt_of_lt_of_le hx h
  have hxy : |x| ≤ |y| := by rwa [abs_of_pos hx, abs_of_pos hy]
  rcases lt_or_eq_of_le (float64Ulp_mono (ne_of_gt hx) hxy) with hlt | heq
  · have h1 : roundFloat64 x ≤ 2 ^ (float64Ulp x + 53) := by
      unfold roundFloat64
      have hm := (abs_le.mp (abs_mantissa_le x)).2
      have hmq : (roundHalfEven (x / 2 ^ float64Ulp x) : ℚ) ≤ 2 ^ (53 : Int) := by
        have : (2 : ℚ) ^ (53 : Int) = ((2 ^ 53 : Int) : ℚ) := by norm_num
        rw [this]
        exact_mod_cast hm
      rw [zpow_add₀ (by norm_num : (2 : ℚ) ≠ 0), mul_comm ((2 : ℚ) ^ float64Ulp x)]
      exact mul_le_mul_of_nonneg_right hmq (le_of_lt (two_zpow_pos _))
    have h2 : (2 : ℚ) ^ (float64Ulp y + 52) ≤ roundFloat64 y := by
      have hlo := zpow_le_abs_of_float64Ulp y (ne_of_gt hy)
        (lt_of_le_of_lt (float64Ulp_ge x) hlt)
      rw [abs_of_pos hy] at hlo
      unfold roundFloat64
      have hq : ((2 ^ 52 : Int) : ℚ) ≤ y / 2 ^ float64Ulp y := by
        rw [le_div_iff₀ (two_zpow_pos _)]
        rw [zpow_add₀ (by norm_num : (2 : ℚ) ≠ 0), mul_comm] at hlo
        have : (2 : ℚ) ^ (52 : Int) = ((2 ^ 52 : Int) : ℚ) := by norm_num
        rw [this] at hlo
        exact hlo
      have hm := le_roundHalfEven _ _ hq
      have hmq : (2 : ℚ) ^ (52 : Int) ≤ (roundHalfEven (y / 2 ^ float64Ulp y) : ℚ) := by
        have : (2 : ℚ) ^ (52 : Int) = ((2 ^ 52 : Int) : ℚ) := by norm_num
        rw [this]
        exact_mod_cast hm
      rw [zpow_add₀ (by norm_num : (2 : ℚ) ≠ 0), mul_comm ((2 : ℚ) ^ float64Ulp y)]
      exact mul_le_mul_of_nonneg_right hmq (le_of_lt (two_zpow_pos _))
    exact le_trans h1 (le_trans (two_zpow_le (by omega)) h2)
  · unfold roundFloat64
    rw [heq]
    have hq : x / 2 ^ float64Ulp y ≤ y / 2 ^ float64Ulp y :=
      div_le_div_of_nonneg_right h (le_of_lt (two_zpow_pos _))
    have hm := roundHalfEven_mono hq
    exact mul_le_mul_of_nonneg_right (by exact_mod_cast hm) (le_of_lt (two_zpow_pos _))

theorem roundFloat64_mono_neg {x y : ℚ} (hy : y < 0) (h : x ≤ y) :
    roundFloat64 x ≤ roundFloat64 y := by
  have hx : x < 0 := lt_of_le_of_lt h hy
  have hxy : |y| ≤ |x| := by rw [abs_of_neg hx, abs_of_neg hy]; linarith
  rcases lt_or_eq_of_le (float64Ulp_mono (ne_of_lt hy) hxy) with hlt | heq
  · have h1 : -(2 : ℚ) ^ (float64Ulp y + 53) ≤ roundFloat64 y := by
      unfold roundFloat64
      have hm := (abs_le.mp (abs_mantissa_le y)).1
      have hmq : -(2 : ℚ) ^ (53 : Int) ≤ (roundHalfEven (y / 2 ^ float64Ulp y) : ℚ) := by
        have : -(2 : ℚ) ^ (53 : Int) = ((-(2 ^ 53) : Int) : ℚ) := by norm_num
        rw [this]
        exact_mod_cast hm
      rw [zpow_add₀ (by norm_num : (2 : ℚ) ≠ 0), mul_comm ((2 : ℚ) ^ float64Ulp y), ← neg_mul]
      exact mul_le_mul_of_nonneg_right hmq (le_of_lt (two_zpow_pos _))
    have h2 : roundFloat64 x ≤ -(2 : ℚ) ^ (float64Ulp x + 52) := by
      have hlo := zpow_le_abs_of_float64Ulp x (ne_of_lt hx)
        (lt_of_le_of_lt (float64Ulp_ge y) hlt)
      rw [abs_of_neg hx] at hlo
      unfold roundFloat64
      have hq : x / 2 ^ float64Ulp x ≤ ((-(2 ^ 52) : Int) : ℚ) := by
        rw [div_le_iff₀ (two_zpow_pos _)]
        rw [zpow_add₀ (by norm_num : (2 : ℚ) ≠ 0), mul_comm] at hlo
        have : (2 : ℚ) ^ (52 : Int) = 2 ^ (52 : ℕ) := by norm_num
        rw [this] at hlo
        push_cast
        linarith
      have hm := roundHalfEven_le _ _ hq
      have hmq : (roundHalfEven (x / 2 ^ float64Ulp x) : ℚ) ≤ -(2 : ℚ) ^ (52 : Int) := by
        have : -(2 : ℚ) ^ (52 : Int) = ((-(2 ^ 52) : Int) : ℚ) := by norm_num
        rw [this]
        exact_mod_cast hm
      rw [zpow_add₀ (by norm_num : (2 : ℚ) ≠ 0), mul_comm ((2 : ℚ) ^ float64Ulp x), ← neg_mul]
      exact mul_le_mul_of_nonneg_right hmq (le_of_lt (two_zpow_pos _))
    refine le_trans h2 (le_trans ?_ h1)
    exact neg_le_neg (two_zpow_le (by omega))
  · unfold roundFloat64
    rw [← heq]
    have hq : x / 2 ^ float64Ulp y ≤ y / 2 ^ float64Ulp y :=
      div_le_div_of_nonneg_right h (le_of_lt (two_zpow_pos _))
    have hm := roundHalfEven_mono hq
    exact mul_le_mul_of_nonneg_right (by exact_mod_cast hm) (le_of_lt (two_zpow_pos _))

/-- Rounding to float64 is monotone. -/
theorem roundFloat64_mono {x y : ℚ} (h : x ≤ y) : roundFloat64 x ≤ roundFloat64 y := by
  rcases lt_trichotomy 0 x with hx | hx | hx
  · exact roundFloat64_mono_pos hx h
  · rw [← hx, roundFloat64_zero]
    exact roundFloat64_nonneg (by rw [← hx] at h; exact h)
  · rcases lt_or_le y 0 with hy | hy
    · exact roundFloat64_mono_neg hy h
    · exact le_trans (roundFloat64_nonpos (le_of_lt hx)) (roundFloat64_nonneg hy)

theorem roundFloat64_one : roundFloat64 1 = 1 := by
  have := roundFloat64_intCast 1 (by norm_num)
  simpa using this

theorem roundFloat64_of_isFloat64 {x : ℚ} (h : IsFloat64 x) : roundFloat64 x = x := by
  obtain ⟨m, k, hm, hk, _, rfl⟩ := h
  exact roundFloat64_of_dyadic m k hm hk

theorem float64OfInt_of_abs_le (z : Int) (h : |z| ≤ 2 ^ 53) : float64OfInt z = z :=
  roundFloat64_intCast z h

theorem float64OfInt_mono {a b : Int} (h : a ≤ b) : float64OfInt a ≤ float64OfInt b :=
  roundFloat64_mono (by exact_mod_cast h)

/-! ## Lemmas about the delay computation -/

theorem durationOfFloat_of_nonneg (x : ℚ) (h0 : 0 ≤ x) (h : x < 2 ^ 63) :
    durationOfFloat x = ⌊x⌋ := by
  unfold durationOfFloat
  rw [if_pos ⟨le_trans (by norm_num) h0, h⟩, if_pos h0]

theorem durationOfFloat_intCast (z : Int) (h1 : -2 ^ 63 ≤ z) (h2 : z < 2 ^ 63) :
    durationOfFloat (z : ℚ) = z := by
  unfold durationOfFloat
  have hr : -(2 : ℚ) ^ 63 ≤ (z : ℚ) ∧ (z : ℚ) < 2 ^ 63 := by
    constructor
    · exact_mod_cast h1
    · exact_mod_cast h2
  rw [if_pos hr]
  split <;> simp

theorem durationOfFloat_nonpos (x : ℚ) (h : x ≤ 0) : durationOfFloat x ≤ 0 := by
  unfold durationOfFloat
  split_ifs with h1 h2
  · have hx : x = 0 := le_antisymm h h2
    rw [hx]
    simp
  · exact Int.ceil_le.mpr (by push_cast; exact h)
  · decide

theorem durationOfFloat_out_of_range (x : ℚ) (h : 2 ^ 63 ≤ x) : durationOfFloat x = MinInt64 := by
  unfold durationOfFloat
  rw [if_neg (fun hc => absurd hc.2 (not_lt.mpr h))]

theorem le_durationOfFloat (z : Int) (x : ℚ) (hz : 0 ≤ z) (hx : (z : ℚ) ≤ x)
    (hlt : x < 2 ^ 63) : z ≤ durationOfFloat x := by
  have h0 : (0 : ℚ) ≤ x := le_trans (by exact_mod_cast hz) hx
  rw [durationOfFloat_of_nonneg x h0 hlt]
  exact Int.le_floor.mpr hx

theorem durationOfFloat_mono_nonneg {x y : ℚ} (h0 : 0 ≤ x) (h : x ≤ y) (hlt : y < 2 ^ 63) :
    durationOfFloat x ≤ durationOfFloat y := by
  rw [durationOfFloat_of_nonneg x h0 (lt_of_le_of_lt h hlt),
    durationOfFloat_of_nonneg y (le_trans h0 h) hlt]
  exact Int.floor_mono h

theorem calculateNextDelay_eq (currentDelay : Duration) (cfg : Config) (r : ℚ) :
    calculateNextDelay currentDelay cfg r =
      if roundFloat64 cfg.Jitter > 0 then
        durationOfFloat (float64Mul (float64OfInt (cappedDelay currentDelay cfg))
          (float64Add 1 (float64Mul (roundFloat64 r) (roundFloat64 cfg.Jitter))))
      else cappedDelay currentDelay cfg := rfl

theorem cappedDelay_eq_min (currentDelay : Duration) (cfg : Config) :
    cappedDelay currentDelay cfg =
      min (durationOfFloat
        (float64Mul (float64OfInt currentDelay) (roundFloat64 cfg.BackoffFactor)))
        cfg.MaxDelay := by
  unfold cappedDelay
  simp only
  split_ifs with h
  · exact (min_eq_right (le_of_lt h)).symm
  · exact (min_eq_left (not_lt.mp h)).symm

theorem cappedDelay_le_MaxDelay (currentDelay : Duration) (cfg : Config) :
    cappedDelay currentDelay cfg ≤ cfg.MaxDelay := by
  rw [cappedDelay_eq_min]
  exact min_le_right _ _

theorem cappedDelay_nonneg (currentDelay : Duration) (cfg : Config) (hcur : 0 ≤ currentDelay)
    (hb : 0 ≤ cfg.BackoffFactor) (hmax : 0 ≤ cfg.MaxDelay)
    (hov : float64Mul (float64OfInt currentDelay) (roundFloat64 cfg.BackoffFactor) < 2 ^ 63) :
    0 ≤ cappedDelay currentDelay cfg := by
  rw [cappedDelay_eq_min]
  refine le_min ?_ hmax
  have ha : (0 : ℚ) ≤ float64OfInt currentDelay :=
    roundFloat64_nonneg (by exact_mod_cast hcur)
  have hp : (0 : ℚ) ≤ float64Mul (float64OfInt currentDelay) (roundFloat64 cfg.BackoffFactor) :=
    roundFloat64_nonneg (mul_nonneg ha (roundFloat64_nonneg hb))
  exact le_durationOfFloat 0 _ (le_refl _) (by simpa using hp) hov

/-- The factor `1 + rand.Float64() * cfg.Jitter` lies between 1 and `1 + cfg.Jitter`, both
as `float64` evaluates them, for a jitter fraction `≥ 0` and a draw in `[0,1]`. -/
theorem jitterFactor_bounds (cfg : Config) (r : ℚ) (hf : 0 ≤ cfg.Jitter) (hr0 : 0 ≤ r)
    (hr1 : r ≤ 1) :
    1 ≤ float64Add 1 (float64Mul (roundFloat64 r) (roundFloat64 cfg.Jitter)) ∧
      float64Add 1 (float64Mul (roundFloat64 r) (roundFloat64 cfg.Jitter)) ≤
        float64Add 1 (roundFloat64 cfg.Jitter) := by
  have hJ : 0 ≤ roundFloat64 cfg.Jitter := roundFloat64_nonneg hf
  have hr0' : 0 ≤ roundFloat64 r := roundFloat64_nonneg hr0
  have hr1' : roundFloat64 r ≤ 1 := by
    have := roundFloat64_mono hr1
    rwa [roundFloat64_one] at this
  have hj0 : 0 ≤ float64Mul (roundFloat64 r) (roundFloat64 cfg.Jitter) :=
    roundFloat64_nonneg (mul_nonneg hr0' hJ)
  have hj1 : float64Mul (roundFloat64 r) (roundFloat64 cfg.Jitter) ≤ roundFloat64 cfg.Jitter := by
    have h := roundFloat64_mono (mul_le_of_le_one_left hJ hr1')
    rwa [roundFloat64_idem] at h
  constructor
  · have h := roundFloat64_mono (show (1 : ℚ) ≤
        1 + float64Mul (roundFloat64 r) (roundFloat64 cfg.Jitter) by linarith)
    rwa [roundFloat64_one] at h
  · exact roundFloat64_mono (by linarith)

/-- Multiplying a delay in `[0, 2 ^ 53]` by a `float64` factor `≥ 1` does not make it
smaller. -/
theorem le_float64Mul_of_one_le (c : Int) (s : ℚ) (hc0 : 0 ≤ c) (hc53 : c ≤ 2 ^ 53)
    (hs : 1 ≤ s) : (c : ℚ) ≤ float64Mul (float64OfInt c) s := by
  have hfix : roundFloat64 (c : ℚ) = c :=
    roundFloat64_intCast c (abs_le.mpr ⟨le_trans (by norm_num) hc0, hc53⟩)
  have hcq : (0 : ℚ) ≤ (c : ℚ) := by exact_mod_cast hc0
  have h := roundFloat64_mono (show (c : ℚ) ≤ (c : ℚ) * s by nlinarith)
  rw [hfix] at h
  unfold float64Mul float64OfInt
  rw [hfix]
  exact h

/-- The jitter interval: with a capped delay `c` in `[0, 2 ^ 53]`, a jitter fraction `≥ 0`,
a draw in `[0,1]` and `c * (1 + Jitter)` below `2 ^ 63` in `float64`, the returned delay
is at least `c` and at most `c * (1 + Jitter)` as `float64` evaluates it. -/
theorem calculateNextDelay_in_jitter_interval (currentDelay : Duration) (cfg : Config)
    (r : ℚ) (hc0 : 0 ≤ cappedDelay currentDelay cfg)
    (hc53 : cappedDelay currentDelay cfg ≤ 2 ^ 53) (hf : 0 ≤ cfg.Jitter)
    (hov : float64Mul (float64OfInt (cappedDelay currentDelay cfg))
      (float64Add 1 (roundFloat64 cfg.Jitter)) < 2 ^ 63)
    (hr0 : 0 ≤ r) (hr1 : r ≤ 1) :
    cappedDelay currentDelay cfg ≤ calculateNextDelay currentDelay cfg r ∧
      calculateNextDelay currentDelay cfg r ≤
        jitterCeiling (cappedDelay currentDelay cfg) cfg := by
  have ha : float64OfInt (cappedDelay currentDelay cfg) = (cappedDelay currentDelay cfg : ℚ) :=
    float64OfInt_of_abs_le _ (abs_le.mpr ⟨le_trans (by norm_num) hc0, hc53⟩)
  have hcq : (0 : ℚ) ≤ (cappedDelay currentDelay cfg : ℚ) := by exact_mod_cast hc0
  have hone : 1 ≤ float64Add 1 (roundFloat64 cfg.Jitter) := by
    have h := roundFloat64_mono (show (1 : ℚ) ≤ 1 + roundFloat64 cfg.Jitter by
      have := roundFloat64_nonneg hf
      linarith)
    rwa [roundFloat64_one] at h
  have hceil : cappedDelay currentDelay cfg ≤ jitterCeiling (cappedDelay currentDelay cfg) cfg := by
    unfold jitterCeiling
    exact le_durationOfFloat _ _ hc0 (le_float64Mul_of_one_le _ _ hc0 hc53 hone) hov
  rw [calculateNextDelay_eq]
  split_ifs with hj
  · obtain ⟨hs1, hs2⟩ := jitterFactor_bounds cfg r hf hr0 hr1
    have hp2 : float64Mul (float64OfInt (cappedDelay currentDelay cfg))
          (float64Add 1 (float64Mul (roundFloat64 r) (roundFloat64 cfg.Jitter))) ≤
        float64Mul (float64OfInt (cappedDelay currentDelay cfg))
          (float64Add 1 (roundFloat64 cfg.Jitter)) := by
      refine roundFloat64_mono (mul_le_mul_of_nonneg_left hs2 ?_)
      rw [ha]
      exact hcq
    have hp1 : (cappedDelay currentDelay cfg : ℚ) ≤
        float64Mul (float64OfInt (cappedDelay currentDelay cfg))
          (float64Add 1 (float64Mul (roundFloat64 r) (roundFloat64 cfg.Jitter))) :=
      le_float64Mul_of_one_le _ _ hc0 hc53 hs1
    constructor
    · exact le_durationOfFloat _ _ hc0 hp1 (lt_of_le_of_lt hp2 hov)
    · exact durationOfFloat_mono_nonneg (le_trans hcq hp1) hp2 hov
  · exact ⟨le_refl _, hceil⟩

/-- Every delay returned is at most `MaxDelay * (1 + Jitter)` as `float64` evaluates it,
whatever the current delay and the backoff factor are, for `0 ≤ MaxDelay ≤ 2 ^ 53`. -/
theorem calculateNextDelay_le_jitterCeiling (currentDelay : Duration) (cfg : Config) (r : ℚ)
    (hmax0 : 0 ≤ cfg.MaxDelay) (hmax : cfg.MaxDelay ≤ 2 ^ 53) (hf : 0 ≤ cfg.Jitter)
    (hov : float64Mul (float64OfInt cfg.MaxDelay) (float64Add 1 (roundFloat64 cfg.Jitter)) <
      2 ^ 63)
    (hr0 : 0 ≤ r) (hr1 : r ≤ 1) :
    calculateNextDelay currentDelay cfg r ≤ jitterCeiling cfg.MaxDelay cfg := by
  have hM : float64OfInt cfg.MaxDelay = (cfg.MaxDelay : ℚ) :=
    float64OfInt_of_abs_le _ (abs_le.mpr ⟨le_trans (by norm_num) hmax0, hmax⟩)
  have hMq : (0 : ℚ) ≤ (cfg.MaxDelay : ℚ) := by exact_mod_cast hmax0
  have hone : 1 ≤ float64Add 1 (roundFloat64 cfg.Jitter) := by
    have h := roundFloat64_mono (show (1 : ℚ) ≤ 1 + roundFloat64 cfg.Jitter by
      have := roundFloat64_nonneg hf
      linarith)
    rwa [roundFloat64_one] at h
  have hP0 : (0 : ℚ) ≤
      float64Mul (float64OfInt cfg.MaxDelay) (float64Add 1 (roundFloat64 cfg.Jitter)) := by
    refine roundFloat64_nonneg (mul_nonneg ?_ (by linarith))
    rw [hM]
    exact hMq
  have hceil0 : 0 ≤ jitterCeiling cfg.MaxDelay cfg :=
    le_durationOfFloat 0 _ (le_refl _) (by simpa using hP0) hov
  have hceilM : cfg.MaxDelay ≤ jitterCeiling cfg.MaxDelay cfg := by
    unfold jitterCeiling
    exact le_durationOfFloat _ _ hmax0 (le_float64Mul_of_one_le _ _ hmax0 hmax hone) hov
  have hcM := cappedDelay_le_MaxDelay currentDelay cfg
  rw [calculateNextDelay_eq]
  split_ifs with hj
  · obtain ⟨hs1, hs2⟩ := jitterFactor_bounds cfg r hf hr0 hr1
    have haM : float64OfInt (cappedDelay currentDelay cfg) ≤ float64OfInt cfg.MaxDelay :=
      float64OfInt_mono hcM
    rcases le_or_lt 0 (float64OfInt (cappedDelay currentDelay cfg)) with ha | ha
    · have hp0 : (0 : ℚ) ≤ float64Mul (float64OfInt (cappedDelay currentDelay cfg))
          (float64Add 1 (float64Mul (roundFloat64 r) (roundFloat64 cfg.Jitter))) :=
        roundFloat64_nonneg (mul_nonneg ha (by linarith))
      have hp : float64Mul (float64OfInt (cappedDelay currentDelay cfg))
            (float64Add 1 (float64Mul (roundFloat64 r) (roundFloat64 cfg.Jitter))) ≤
          float64Mul (float64OfInt cfg.MaxDelay) (float64Add 1 (roundFloat64 cfg.Jitter)) :=
        roundFloat64_mono (mul_le_mul haM hs2 (by linarith) (le_trans ha haM))
      exact durationOfFloat_mono_nonneg hp0 hp hov
    · have hp : float64Mul (float64OfInt (cappedDelay currentDelay cfg))
            (float64Add 1 (float64Mul (roundFloat64 r) (roundFloat64 cfg.Jitter))) ≤ 0 :=
        roundFloat64_nonpos (le_of_lt (mul_neg_of_neg_of_pos ha (by linarith)))
      exact le_trans (durationOfFloat_nonpos _ hp) hceil0
  · exact le_trans hcM hceilM

theorem failedRounds_waits_forall (cfg : Config) (env : Env) (P : Duration → Prop)
    (hP : ∀ d i, P (calculateNextDelay d cfg (env.rand i))) (n : Nat) :
    ∀ attempt delay, ∀ w ∈ (failedRounds cfg env attempt delay n).filterMap Event.delay?,
      P w := by
  induction n with
  | zero => intro attempt delay w hw; simp [failedRounds] at hw
  | succ n ih =>
    intro attempt delay w hw
    simp only [failedRounds, List.filterMap_cons, Event.delay?, List.mem_cons] at hw
    rcases hw with rfl | hw
    · exact hP _ _
    · exact ih _ _ w hw

theorem sum_le_length_mul (l : List Int) (B : Int) (h : ∀ w ∈ l, w ≤ B) :
    l.sum ≤ (l.length : Int) * B := by
  induction l with
  | nil => simp
  | cons a l ih =>
    have ha := h a (List.mem_cons_self _ _)
    have hl := ih (fun w hw => h w (List.mem_cons_of_mem _ hw))
    rw [List.sum_cons, List.length_cons]
    push_cast
    linarith

/-! ## Lemmas for the delay without jitter -/

/-- Without jitter the result is the backed-off delay, computed in `float64` and
converted, capped at `MaxDelay`. -/
theorem calculateNextDelay_of_jitter_nonpos (currentDelay : Duration) (cfg : Config) (r : ℚ)
    (hj : cfg.Jitter ≤ 0) :
    calculateNextDelay currentDelay cfg r =
      min (durationOfFloat
        (float64Mul (float64OfInt currentDelay) (roundFloat64 cfg.BackoffFactor)))
        cfg.MaxDelay := by
  rw [calculateNextDelay_eq, if_neg (not_lt.mpr (roundFloat64_nonpos hj)), cappedDelay_eq_min]

/-- For an integral factor `b`, when `b`, the current delay and their product have
magnitude at most `2 ^ 53`, the backed-off delay is exactly the product. -/
theorem backoff_exact (currentDelay : Duration) (cfg : Config) (b : Int)
    (hb : cfg.BackoffFactor = b) (hb53 : |b| ≤ 2 ^ 53) (hc53 : |currentDelay| ≤ 2 ^ 53)
    (hp53 : |b * currentDelay| ≤ 2 ^ 53) :
    durationOfFloat (float64Mul (float64OfInt currentDelay) (roundFloat64 cfg.BackoffFactor)) =
      b * currentDelay := by
  have hx : (currentDelay : ℚ) * (b : ℚ) = ((b * currentDelay : Int) : ℚ) := by
    push_cast; ring
  have hp := abs_le.mp hp53
  rw [hb, roundFloat64_intCast b hb53, float64OfInt_of_abs_le currentDelay hc53]
  unfold float64Mul
  rw [hx, roundFloat64_intCast _ hp53]
  exact durationOfFloat_intCast _ (by omega) (by omega)

/-- When the factor is a `float64`, the current delay has magnitude at most `2 ^ 53` and
their product is a whole number `p` of magnitude at most `2 ^ 53`, the backed-off delay
is exactly `p`. -/
theorem backoff_exact_of_product (currentDelay : Duration) (cfg : Config) (p : Int)
    (hB : IsFloat64 cfg.BackoffFactor) (hc53 : |currentDelay| ≤ 2 ^ 53)
    (hp : (currentDelay : ℚ) * cfg.BackoffFactor = p) (hp53 : |p| ≤ 2 ^ 53) :
    durationOfFloat (float64Mul (float64OfInt currentDelay) (roundFloat64 cfg.BackoffFactor)) =
      p := by
  have hr := abs_le.mp hp53
  rw [roundFloat64_of_isFloat64 hB, float64OfInt_of_abs_le currentDelay hc53]
  unfold float64Mul
  rw [hp, roundFloat64_intCast _ hp53]
  exact durationOfFloat_intCast _ (by omega) (by omega)

/-- With factor 1 and no jitter a delay of magnitude at most `2 ^ 53` within the cap is
returned unchanged. -/
theorem calculateNextDelay_constant (currentDelay : Duration) (cfg : Config) (r : ℚ)
    (hb : cfg.BackoffFactor = 1) (hj : cfg.Jitter = 0) (hle : currentDelay ≤ cfg.MaxDelay)
    (hc53 : |currentDelay| ≤ 2 ^ 53) :
    calculateNextDelay currentDelay cfg r = currentDelay := by
  have h := backoff_exact currentDelay cfg 1 (by rw [hb]; norm_num) (by norm_num) hc53
    (by rw [one_mul]; exact hc53)
  rw [calculateNextDelay_of_jitter_nonpos currentDelay cfg r (le_of_eq hj), h, one_mul]
  exact min_eq_left hle

/-- Rounding to the nearest integer adds at most one half. -/
theorem roundHalfEven_le_add_half (q : ℚ) : (roundHalfEven q : ℚ) ≤ q + 1 / 2 := by
  have hfl := Int.floor_le q
  unfold roundHalfEven
  split_ifs with h1 h2
  · linarith
  · push_cast; linarith [Int.lt_floor_add_one q]
  · linarith
  · push_cast; linarith

/-- Rounding a value `≥ 1` to `float64` increases it by at most the factor `1 + 2 ^ (-53)`. -/
theorem roundFloat64_le_of_one_le (x : ℚ) (hx : 1 ≤ x) :
    roundFloat64 x ≤ x * (1 + 1 / 2 ^ 53) := by
  have hpos : 0 < x := lt_of_lt_of_le one_pos hx
  have habs : |x| = x := abs_of_pos hpos
  have hlog : (0 : Int) ≤ Int.log 2 |x| :=
    (Int.zpow_le_iff_le_log (b := 2) (by norm_num) (abs_pos.mpr (ne_of_gt hpos))).mp
      (by rw [habs]; simpa using hx)
  have he : -1074 < float64Ulp x := by
    unfold float64Ulp
    have := le_max_left (Int.log 2 |x| - 52) (-1074)
    omega
  have hlo := zpow_le_abs_of_float64Ulp x (ne_of_gt hpos) he
  rw [habs, zpow_add₀ (by norm_num : (2 : ℚ) ≠ 0)] at hlo
  have h52 : (2 : ℚ) ^ (52 : Int) = 2 ^ 52 := by norm_num
  rw [h52] at hlo
  have hp := two_zpow_pos (float64Ulp x)
  have hr := roundHalfEven_le_add_half (x / 2 ^ float64Ulp x)
  have hmul : (roundHalfEven (x / 2 ^ float64Ulp x) : ℚ) * 2 ^ float64Ulp x ≤
      (x / 2 ^ float64Ulp x + 1 / 2) * 2 ^ float64Ulp x :=
    mul_le_mul_of_nonneg_right hr (le_of_lt hp)
  have hsimp : (x / 2 ^ float64Ulp x + 1 / 2) * 2 ^ float64Ulp x =
      x + 2 ^ float64Ulp x / 2 := by
    field_simp
    ring
  unfold roundFloat64
  rw [hsimp] at hmul
  refine le_trans hmul ?_
  have : (2 : ℚ) ^ float64Ulp x / 2 ≤ x * (1 / 2 ^ 53) := by
    rw [mul_one_div, le_div_iff₀ (by norm_num : (0 : ℚ) < 2 ^ 53)]
    calc (2 : ℚ) ^ float64Ulp x / 2 * 2 ^ 53 = 2 ^ float64Ulp x * 2 ^ 52 := by ring
      _ ≤ x := hlo
  linarith

/-- The upper end of the jitter interval, in real terms: at most `c * (1 + f)` increased
by two `float64` roundings, `f` being the `float64` value of `cfg.Jitter`. -/
theorem jitterCeiling_le_real (c : Duration) (cfg : Config) (hc0 : 0 ≤ c) (hc53 : c ≤ 2 ^ 53)
    (hf : 0 ≤ cfg.Jitter)
    (hov : float64Mul (float64OfInt c) (float64Add 1 (roundFloat64 cfg.Jitter)) < 2 ^ 63) :
    (jitterCeiling c cfg : ℚ) ≤
      (c : ℚ) * (1 + roundFloat64 cfg.Jitter) * (1 + 1 / 2 ^ 53) ^ 2 := by
  have hJ : 0 ≤ roundFloat64 cfg.Jitter := roundFloat64_nonneg hf
  have hcq : (0 : ℚ) ≤ (c : ℚ) := by exact_mod_cast hc0
  have ha : float64OfInt c = (c : ℚ) :=
    float64OfInt_of_abs_le c (abs_le.mpr ⟨le_trans (by norm_num) hc0, hc53⟩)
  have hS : float64Add 1 (roundFloat64 cfg.Jitter) ≤
      (1 + roundFloat64 cfg.Jitter) * (1 + 1 / 2 ^ 53) :=
    roundFloat64_le_of_one_le _ (by linarith)
  have hS1 : 1 ≤ float64Add 1 (roundFloat64 cfg.Jitter) := by
    have h := roundFloat64_mono (show (1 : ℚ) ≤ 1 + roundFloat64 cfg.Jitter by linarith)
    rwa [roundFloat64_one] at h
  have hP0 : (0 : ℚ) ≤ float64Mul (float64OfInt c) (float64Add 1 (roundFloat64 cfg.Jitter)) :=
    roundFloat64_nonneg (by rw [ha]; exact mul_nonneg hcq (by linarith))
  have hu : (0 : ℚ) ≤ 1 + 1 / 2 ^ 53 := by norm_num
  have hfloor : (jitterCeiling c cfg : ℚ) ≤
      float64Mul (float64OfInt c) (float64Add 1 (roundFloat64 cfg.Jitter)) := by
    unfold jitterCeiling
    rw [durationOfFloat_of_nonneg _ hP0 hov]
    exact Int.floor_le _
  refine le_trans hfloor ?_
  rcases eq_or_lt_of_le hc0 with h0 | hpos
  · rw [← h0]
    unfold float64Mul float64OfInt
    simp [roundFloat64_zero]
  · have hc1 : (1 : ℚ) ≤ (c : ℚ) := by exact_mod_cast hpos
    have hx1 : (1 : ℚ) ≤ (c : ℚ) * float64Add 1 (roundFloat64 cfg.Jitter) := by nlinarith
    have hP : float64Mul (float64OfInt c) (float64Add 1 (roundFloat64 cfg.Jitter)) ≤
        (c : ℚ) * float64Add 1 (roundFloat64 cfg.Jitter) * (1 + 1 / 2 ^ 53) := by
      unfold float64Mul
      rw [ha]
      exact roundFloat64_le_of_one_le _ hx1
    refine le_trans hP ?_
    have hstep : (c : ℚ) * float64Add 1 (roundFloat64 cfg.Jitter) ≤
        (c : ℚ) * ((1 + roundFloat64 cfg.Jitter) * (1 + 1 / 2 ^ 53)) :=
      mul_le_mul_of_nonneg_left hS hcq
    calc (c : ℚ) * float64Add 1 (roundFloat64 cfg.Jitter) * (1 + 1 / 2 ^ 53)
        ≤ (c : ℚ) * ((1 + roundFloat64 cfg.Jitter) * (1 + 1 / 2 ^ 53)) * (1 + 1 / 2 ^ 53) :=
          mul_le_mul_of_nonneg_right hstep hu
      _ = (c : ℚ) * (1 + roundFloat64 cfg.Jitter) * (1 + 1 / 2 ^ 53) ^ 2 := by ring

/-! ## Evaluation of the delay computation at given `float64` values -/

/-- Rounding of a value that is a `float64`, given with its significand and exponent. -/
theorem roundFloat64_eq (x y : ℚ) (m k : Int) (hm : |m| < 2 ^ 53) (hk : -1074 ≤ k)
    (hx : x = (m : ℚ) * 2 ^ k) (hy : y = x) : roundFloat64 x = y := by
  rw [hy, hx]
  exact roundFloat64_of_dyadic m k hm hk

/-- Rounding of a value that is strictly nearer to the `float64` value `m * 2 ^ e` than
to its neighbours. -/
theorem roundFloat64_near (x y : ℚ) (m e : Int) (he : -1074 ≤ e)
    (hlo : (2 : ℚ) ^ (e + 52) ≤ |x|) (hhi : |x| < 2 ^ (e + 53))
    (h1 : (m : ℚ) - 1 / 2 < x / 2 ^ e) (h2 : x / 2 ^ e < (m : ℚ) + 1 / 2)
    (hy : y = (m : ℚ) * 2 ^ e) : roundFloat64 x = y := by
  rw [hy]
  exact roundFloat64_eq_of_near x m e he hlo hhi h1 h2

/-- The capped delay, from the values of the `float64` operations that lead to it. -/
theorem cappedDelay_of (currentDelay : Duration) (cfg : Config) (a f p : ℚ) (d : Int)
    (ha : float64OfInt currentDelay = a) (hf : roundFloat64 cfg.BackoffFactor = f)
    (hp : roundFloat64 (a * f) = p) (hd : durationOfFloat p = d) :
    cappedDelay currentDelay cfg = if d > cfg.MaxDelay then cfg.MaxDelay else d := by
  unfold cappedDelay float64Mul
  rw [ha, hf, hp, hd]

/-- The capped delay for an integral factor when nothing is rounded. -/
theorem cappedDelay_exact (currentDelay : Duration) (cfg : Config) (b : Int)
    (hb : cfg.BackoffFactor = b) (hb53 : |b| ≤ 2 ^ 53) (hc53 : |currentDelay| ≤ 2 ^ 53)
    (hp53 : |b * currentDelay| ≤ 2 ^ 53) :
    cappedDelay currentDelay cfg = min (b * currentDelay) cfg.MaxDelay := by
  rw [cappedDelay_eq_min, backoff_exact currentDelay cfg b hb hb53 hc53 hp53]

/-- The returned delay when `cfg.Jitter > 0`, from the values of the `float64` operations
that lead to it. -/
theorem calculateNextDelay_of_jitter (currentDelay : Duration) (cfg : Config) (r : ℚ)
    (c : Int) (J r' j s a p : ℚ) (hc : cappedDelay currentDelay cfg = c)
    (hJ : roundFloat64 cfg.Jitter = J) (hpos : 0 < J) (hr : roundFloat64 r = r')
    (hj : roundFloat64 (r' * J) = j) (hs : roundFloat64 (1 + j) = s)
    (ha : float64OfInt c = a) (hp : roundFloat64 (a * s) = p) :
    calculateNextDelay currentDelay cfg r = durationOfFloat p := by
  rw [calculateNextDelay_eq, hJ, if_pos hpos, hc]
  unfold float64Mul float64Add
  rw [hr, hj, hs, ha, hp]

/-- The returned delay when `cfg.Jitter > 0` does not hold. -/
theorem calculateNextDelay_of_no_jitter (currentDelay : Duration) (cfg : Config) (r : ℚ)
    (hJ : roundFloat64 cfg.Jitter ≤ 0) :
    calculateNextDelay currentDelay cfg r = cappedDelay currentDelay cfg := by
  rw [calculateNextDelay_eq, if_neg (not_lt.mpr hJ)]

/-- The returned delay for jitter 0.5 and draw 0.5, when nothing is rounded: the capped
delay times 1.25. -/
theorem calculateNextDelay_half_half (currentDelay : Duration) (cfg : Config) (c res : Int)
    (hJ : cfg.Jitter = 1 / 2) (hc : cappedDelay currentDelay cfg = c) (hc53 : |c| ≤ 2 ^ 53)
    (hres : (c : ℚ) * (5 / 4) = res) (hres53 : |res| < 2 ^ 53) :
    calculateNextDelay currentDelay cfg (1 / 2) = res := by
  have hr := abs_lt.mp hres53
  rw [calculateNextDelay_of_jitter currentDelay cfg (1 / 2) c (1 / 2) (1 / 2) (1 / 4) (5 / 4)
    (c : ℚ) (res : ℚ) hc
    (by rw [hJ]; exact roundFloat64_eq _ _ 1 (-1) (by norm_num) (by norm_num) (by norm_num) rfl)
    (by norm_num)
    (roundFloat64_eq _ _ 1 (-1) (by norm_num) (by norm_num) (by norm_num) rfl)
    (roundFloat64_eq _ _ 1 (-2) (by norm_num) (by norm_num) (by norm_num) (by norm_num))
    (roundFloat64_eq _ _ 5 (-2) (by norm_num) (by norm_num) (by norm_num) (by norm_num))
    (float64OfInt_of_abs_le c hc53)
    (by rw [hres]; exact roundFloat64_eq _ _ res 0 hres53 (by norm_num) (by simp) rfl)]
  exact durationOfFloat_intCast res (by omega) (by omega)

/-- The float64 nearest to `2 ^ 54 + 1` is `2 ^ 54`. -/
theorem float64OfInt_two_pow_54_add_one :
    float64OfInt 18014398509481985 = ((18014398509481984 : Int) : ℚ) := by
  unfold float64OfInt
  refine roundFloat64_near _ _ 4503599627370496 2 (by norm_num) ?_ ?_ ?_ ?_ ?_
  · norm_num [abs_of_pos]
  · norm_num [abs_of_pos]
  · norm_num
  · norm_num
  · norm_num

/-- The returned delay without jitter for an integral factor when nothing is rounded. -/
theorem calculateNextDelay_exact_no_jitter (currentDelay : Duration) (cfg : Config) (r : ℚ)
    (b : Int) (hj : cfg.Jitter ≤ 0) (hb : cfg.BackoffFactor = b) (hb53 : |b| ≤ 2 ^ 53)
    (hc53 : |currentDelay| ≤ 2 ^ 53) (hp53 : |b * currentDelay| ≤ 2 ^ 53) :
    calculateNextDelay currentDelay cfg r = min (b * currentDelay) cfg.MaxDelay := by
  rw [calculateNextDelay_of_jitter_nonpos currentDelay cfg r hj,
    backoff_exact currentDelay cfg b hb hb53 hc53 hp53]

/-! ## Lemmas about the options -/

theorem getLast?_cons_getD {α : Type} (a d : α) (l : List α) :
    (a :: l).getLast?.getD d = l.getLast?.getD a := by
  cases l with
  | nil => rfl
  | cons b l =>
    rw [List.getLast?_cons_cons, List.getLast?_eq_getLast _ (List.cons_ne_nil b l)]
    rfl

theorem applyOptions_cons (cfg : Config) (o : ConfigOption) (opts : List ConfigOption) :
    applyOptions cfg (o :: opts) = applyOptions (o cfg) opts := rfl

/-- Each field after the options is the argument of the last option targeting it, or the
field of the starting configuration. -/
theorem applyOptions_fields (specs : List OptionSpec) :
    ∀ cfg : Config,
      (applyOptions cfg (specs.map OptionSpec.toOption)).MaxAttempts =
          (lastArg OptionSpec.maxAttempts? specs).getD cfg.MaxAttempts ∧
        (applyOptions cfg (specs.map OptionSpec.toOption)).InitialDelay =
          (lastArg OptionSpec.initialDelay? specs).getD cfg.InitialDelay ∧
        (applyOptions cfg (specs.map OptionSpec.toOption)).MaxDelay =
          (lastArg OptionSpec.maxDelay? specs).getD cfg.MaxDelay ∧
        (applyOptions cfg (specs.map OptionSpec.toOption)).BackoffFactor =
          (lastArg OptionSpec.backoffFactor? specs).getD cfg.BackoffFactor ∧
        (applyOptions cfg (specs.map OptionSpec.toOption)).Jitter =
          (lastArg OptionSpec.jitter? specs).getD cfg.Jitter := by
  induction specs with
  | nil => intro cfg; simp [applyOptions, lastArg]
  | cons o specs ih =>
    intro cfg
    rw [List.map_cons, applyOptions_cons]
    obtain ⟨h1, h2, h3, h4, h5⟩ := ih (o.toOption cfg)
    rw [h1, h2, h3, h4, h5]
    cases o <;>
      simp [lastArg, List.filterMap_cons, OptionSpec.maxAttempts?, OptionSpec.initialDelay?,
        OptionSpec.maxDelay?, OptionSpec.backoffFactor?, OptionSpec.jitter?,
        getLast?_cons_getD, OptionSpec.toOption, WithMaxAttempts, WithInitialDelay,
        WithMaxDelay, WithBackoffFactor, WithJitter]

/-! ## The claims -/

/-- C1: for every `N > 0`, every option list that yields `MaxAttempts = N`, every
operation that fails on every invocation and a context that is never cancelled, `Do`
invokes the operation exactly `N` times and returns a non-nil error, the
attempts-exhausted one built from the error of the last invocation. -/
theorem Do_always_failing_exhausts (N : Nat) (opts : List ConfigOption) (env : Env)
    (hN : 0 < N) (hcfg : (applyOptions defaultConfig opts).MaxAttempts = N)
    (hfail : ∀ i, env.op i ≠ none) (hctx : ∀ i, env.ctxDone i = none) :
    (Do env opts).invocations = N ∧
      ∃ last, env.op (N - 1) = some last ∧
        (Do env opts).outcome =
          .returned (some (.errorString (exhaustedTag ++ last.Error))) := by
  obtain ⟨last, hlast⟩ := Option.ne_none_iff_exists'.mp (hfail (N - 1))
  have hrun := DoWith_all_fail (applyOptions defaultConfig opts) env N last hN hcfg
    (fun i _ => hfail i) (fun i _ => hctx i) hlast
  unfold Do
  rw [hrun]
  refine ⟨?_, last, hlast, rfl⟩
  rw [Run.invocations_prepend, failedRounds_countP]
  simp [Run.invocations, Run.after, exhausted, Event.isCall]
  omega

/-- C1 at `TestOptions/WithMaxAttempts`: three attempts, the operation always fails. -/
theorem Do_always_failing_exhausts_witness :
    (Do (alwaysFailing "error" 0) [WithMaxAttempts 3]).invocations = 3 ∧
      ∃ last, (alwaysFailing "error" 0).op (3 - 1) = some last ∧
        (Do (alwaysFailing "error" 0) [WithMaxAttempts 3]).outcome =
          .returned (some (.errorString (exhaustedTag ++ last.Error))) :=
  Do_always_failing_exhausts 3 [WithMaxAttempts 3] (alwaysFailing "error" 0) (by decide) rfl
    (fun _ => by simp [alwaysFailing]) (fun _ => rfl)

/-- C2: for every policy and every `k` with `1 ≤ k ≤ MaxAttempts`, if the operation fails
on invocations `1..k-1` and succeeds on invocation `k`, and no wait before is ended by
cancellation, `Do` returns nil after exactly `k` invocations and `k - 1` waits, the
successful invocation being the last thing it does; for `k = 1` that is one invocation
and no delay computed at all. -/
theorem Do_success_on_kth_attempt (opts : List ConfigOption) (env : Env) (k : Nat)
    (hk : 1 ≤ k) (hle : (k : Int) ≤ (applyOptions defaultConfig opts).MaxAttempts)
    (hfail : ∀ i, i + 1 < k → env.op i ≠ none) (hsucc : env.op (k - 1) = none)
    (hctx : ∀ i, i + 1 < k → env.ctxDone i = none) :
    (Do env opts).outcome = .returned none ∧ (Do env opts).invocations = k ∧
      (Do env opts).waits.length = k - 1 ∧
      (Do env opts).trace.getLast? = some (.call none) ∧
      (k = 1 → (Do env opts).trace = [.call none]) := by
  have hrun := DoWith_success_at (applyOptions defaultConfig opts) env k hk hle hfail hsucc hctx
  unfold Do
  rw [hrun]
  refine ⟨rfl, ?_, ?_, ?_, ?_⟩
  · rw [Run.invocations_prepend, failedRounds_countP]
    simp [Run.invocations, Event.isCall]
    omega
  · rw [Run.waits_prepend, List.length_append, failedRounds_waits_length]
    simp [Run.waits, Event.delay?]
  · simp [Run.prepend]
  · intro h1
    subst h1
    rfl

/-- C2 at `TestDo/Retry until success`: two failures, then success on the third of the
five default attempts. -/
theorem Do_success_on_kth_attempt_witness :
    (Do (failsThenSucceeds 2) []).outcome = .returned none ∧
      (Do (failsThenSucceeds 2) []).invocations = 3 ∧
      (Do (failsThenSucceeds 2) []).waits.length = 3 - 1 ∧
      (Do (failsThenSucceeds 2) []).trace.getLast? = some (.call none) ∧
      (3 = 1 → (Do (failsThenSucceeds 2) []).trace = [.call none]) :=
  Do_success_on_kth_attempt [] (failsThenSucceeds 2) 3 (by decide) (by decide)
    (fun i hi => by
      have h2 : i < 2 := by omega
      simp [failsThenSucceeds, h2])
    (by simp [failsThenSucceeds]) (fun _ _ => rfl)

/-- C3, what the code does for every policy with `MaxAttempts ≤ 0`: the operation is not
invoked, and `Do` does not return an error value: it panics in `err.Error()` because
`err` is still nil. -/
theorem Do_no_attempts_panics (opts : List ConfigOption) (env : Env)
    (hM : (applyOptions defaultConfig opts).MaxAttempts ≤ 0) :
    Do env opts = ⟨.panicked, []⟩ ∧ (Do env opts).invocations = 0 := by
  have hge : ¬ ((0 : Nat) : Int) < (applyOptions defaultConfig opts).MaxAttempts := by
    push_cast
    omega
  have hrun : Do env opts = ⟨.panicked, []⟩ := by
    unfold Do DoWith
    rw [doLoop_done _ _ _ _ _ _ hge]
    rfl
  rw [hrun]
  exact ⟨rfl, rfl⟩

/-- C3 at the failing input `WithMaxAttempts(0)`. -/
theorem Do_no_attempts_panics_witness :
    Do (alwaysFailing "error" 0) [WithMaxAttempts 0] = ⟨.panicked, []⟩ ∧
      (Do (alwaysFailing "error" 0) [WithMaxAttempts 0]).invocations = 0 :=
  Do_no_attempts_panics [WithMaxAttempts 0] (alwaysFailing "error" 0) (by decide)

/-- C4: for every policy and every always-failing operation, if the wait of iteration
`j` exists (`j + 1 < MaxAttempts`) and is the first one in which the cancellation
signal is received before the timer, `Do` returns exactly the error `ce` of the context,
that wait is the last event of the run (the operation is not invoked again), and the
`j + 1` invocations made are fewer than `MaxAttempts`. -/
theorem Do_cancelled_during_wait (opts : List ConfigOption) (env : Env) (j : Nat)
    (ce : GoError) (hfail : ∀ i, env.op i ≠ none)
    (hj : (j : Int) + 1 < (applyOptions defaultConfig opts).MaxAttempts)
    (hbefore : ∀ i, i < j → env.ctxDone i = none) (hcancel : env.ctxDone j = some ce) :
    (Do env opts).outcome = .returned (some ce) ∧
      (∃ d, (Do env opts).trace.getLast? = some (.wait d (some ce))) ∧
      (Do env opts).invocations = j + 1 ∧
      ((Do env opts).invocations : Int) < (applyOptions defaultConfig opts).MaxAttempts := by
  obtain ⟨e, he⟩ := Option.ne_none_iff_exists'.mp (hfail j)
  have hrun := DoWith_cancelled_at (applyOptions defaultConfig opts) env j e ce hj
    (fun i _ => hfail i) he hbefore hcancel
  have hinv : (Do env opts).invocations = j + 1 := by
    unfold Do
    rw [hrun, Run.invocations_prepend, failedRounds_countP]
    simp [Run.invocations, Event.isCall]
  refine ⟨?_, ?_, hinv, ?_⟩
  · unfold Do
    rw [hrun]
    rfl
  · unfold Do
    rw [hrun]
    refine ⟨calculateNextDelay
      (delayFrom (applyOptions defaultConfig opts) env 0
        (applyOptions defaultConfig opts).InitialDelay j)
      (applyOptions defaultConfig opts) (env.rand j), ?_⟩
    simp only [Run.prepend]
    rw [List.getLast?_append]
    rfl
  · rw [hinv]
    push_cast
    exact hj

/-- C4 at `TestDo/Context cancellation`: default policy, cancellation received in the
first wait. -/
theorem Do_cancelled_during_wait_witness :
    (Do (cancelledAt 0) []).outcome = .returned (some .canceled) ∧
      (∃ d, (Do (cancelledAt 0) []).trace.getLast? = some (.wait d (some .canceled))) ∧
      (Do (cancelledAt 0) []).invocations = 0 + 1 ∧
      ((Do (cancelledAt 0) []).invocations : Int) <
        (applyOptions defaultConfig []).MaxAttempts :=
  Do_cancelled_during_wait [] (cancelledAt 0) 0 .canceled (fun _ => by simp [cancelledAt])
    (by decide) (fun _ hi => absurd hi (Nat.not_lt_zero _)) rfl

/-- C5, the code at the failing input (policy of three attempts, initial delay 100ms,
factor 2, no jitter, cap 10s, operation always failing): the two waits are 200ms and then
400ms, not 100ms and 200ms, because `calculateNextDelay` is applied to `InitialDelay`
before the first wait. -/
theorem Do_first_wait_is_scaled :
    (Do (alwaysFailing "error" 0)
      [WithMaxAttempts 3, WithInitialDelay (100 * Millisecond), WithBackoffFactor 2,
        WithJitter 0, WithMaxDelay (10 * Second)]).waits =
      [200 * Millisecond, 400 * Millisecond] := by
  have h1 : calculateNextDelay 100000000 ⟨3, 100000000, 10000000000, 2, 0⟩ 0 = 200000000 := by
    rw [calculateNextDelay_exact_no_jitter _ _ _ 2 (by norm_num) (by norm_num) (by norm_num)
      (by norm_num) (by norm_num)]
    rfl
  have h2 : calculateNextDelay 200000000 ⟨3, 100000000, 10000000000, 2, 0⟩ 0 = 400000000 := by
    rw [calculateNextDelay_exact_no_jitter _ _ _ 2 (by norm_num) (by norm_num) (by norm_num)
      (by norm_num) (by norm_num)]
    rfl
  have hw : (Do (alwaysFailing "error" 0)
      [WithMaxAttempts 3, WithInitialDelay (100 * Millisecond), WithBackoffFactor 2,
        WithJitter 0, WithMaxDelay (10 * Second)]).waits =
      [calculateNextDelay 100000000 ⟨3, 100000000, 10000000000, 2, 0⟩ 0,
        calculateNextDelay
          (calculateNextDelay 100000000 ⟨3, 100000000, 10000000000, 2, 0⟩ 0)
          ⟨3, 100000000, 10000000000, 2, 0⟩ 0] := rfl
  rw [hw, h1, h2]
  rfl

/-- C6, the code at the failing input (current delay 100ms, factor 2, cap 150ms, jitter
0.5, draw 0.5): `calculateNextDelay` returns 187.5ms, which exceeds `MaxDelay`, and both
waits of a three-attempt run of `Do` under that policy are 187.5ms. -/
theorem calculateNextDelay_exceeds_MaxDelay :
    calculateNextDelay (100 * Millisecond)
        ⟨3, 100 * Millisecond, 150 * Millisecond, 2, 1 / 2⟩ (1 / 2) = 187500000 ∧
      (150 * Millisecond < (187500000 : Duration)) ∧
      (Do (alwaysFailing "error" (1 / 2))
        [WithMaxAttempts 3, WithInitialDelay (100 * Millisecond),
          WithMaxDelay (150 * Millisecond), WithJitter (1 / 2)]).waits =
        [187500000, 187500000] := by
  have hc1 : cappedDelay 100000000 ⟨3, 100000000, 150000000, 2, 1 / 2⟩ =
      (150000000 : Int) := by
    rw [cappedDelay_exact _ _ 2 (by norm_num) (by norm_num) (by norm_num) (by norm_num)]
    rfl
  have h1 : calculateNextDelay 100000000 ⟨3, 100000000, 150000000, 2, 1 / 2⟩ (1 / 2) =
      187500000 :=
    calculateNextDelay_half_half _ _ 150000000 187500000 rfl hc1 (by norm_num) (by norm_num)
      (by norm_num)
  have hc2 : cappedDelay 187500000 ⟨3, 100000000, 150000000, 2, 1 / 2⟩ =
      (150000000 : Int) := by
    rw [cappedDelay_exact _ _ 2 (by norm_num) (by norm_num) (by norm_num) (by norm_num)]
    rfl
  have h2 : calculateNextDelay 187500000 ⟨3, 100000000, 150000000, 2, 1 / 2⟩ (1 / 2) =
      187500000 :=
    calculateNextDelay_half_half _ _ 150000000 187500000 rfl hc2 (by norm_num) (by norm_num)
      (by norm_num)
  have hw : (Do (alwaysFailing "error" (1 / 2))
      [WithMaxAttempts 3, WithInitialDelay (100 * Millisecond),
        WithMaxDelay (150 * Millisecond), WithJitter (1 / 2)]).waits =
      [calculateNextDelay 100000000 ⟨3, 100000000, 150000000, 2, 1 / 2⟩ (1 / 2),
        calculateNextDelay
          (calculateNextDelay 100000000 ⟨3, 100000000, 150000000, 2, 1 / 2⟩ (1 / 2))
          ⟨3, 100000000, 150000000, 2, 1 / 2⟩ (1 / 2)] := rfl
  refine ⟨h1, by decide, ?_⟩
  rw [hw, h1, h2]

/-- A conversion of a `float64` at or below `-2 ^ 63` gives the smallest `int64`. -/
theorem durationOfFloat_of_le (p : ℚ) (h : p ≤ -(2 : ℚ) ^ 63) : durationOfFloat p = MinInt64 := by
  unfold durationOfFloat
  split_ifs with h1 h2
  · exact absurd h2 (not_le.mpr (lt_of_le_of_lt h (by norm_num)))
  · have hp : p = ((MinInt64 : Int) : ℚ) := by
      rw [le_antisymm h h1.1]
      norm_num [MinInt64]
    rw [hp, Int.ceil_intCast]
  · rfl

/-- From the smallest `int64` the jitter step returns the smallest `int64`. -/
theorem jitter_step_MinInt64 (s : ℚ) (hs : 1 ≤ s) :
    durationOfFloat (float64Mul (float64OfInt MinInt64) s) = MinInt64 := by
  have ha : float64OfInt MinInt64 = -(2 : ℚ) ^ 63 := by
    unfold float64OfInt
    exact roundFloat64_eq _ _ (-1) 63 (by norm_num) (by norm_num) (by norm_num [MinInt64])
      (by norm_num [MinInt64])
  have hfix : roundFloat64 (-(2 : ℚ) ^ 63) = -(2 : ℚ) ^ 63 :=
    roundFloat64_eq _ _ (-1) 63 (by norm_num) (by norm_num) (by norm_num) rfl
  apply durationOfFloat_of_le
  rw [ha]
  have h := roundFloat64_mono (show -(2 : ℚ) ^ 63 * s ≤ -(2 : ℚ) ^ 63 by nlinarith)
  rw [hfix] at h
  exact h

/-- With a factor and a current delay that are not negative, the capped delay is not
negative, or it is the smallest `int64` (the product did not fit `int64`). -/
theorem cappedDelay_nonneg_or_MinInt64 (currentDelay : Duration) (cfg : Config)
    (hcur : 0 ≤ currentDelay) (hb : 0 ≤ cfg.BackoffFactor) (hmax : 0 ≤ cfg.MaxDelay) :
    0 ≤ cappedDelay currentDelay cfg ∨ cappedDelay currentDelay cfg = MinInt64 := by
  rcases lt_or_le
      (float64Mul (float64OfInt currentDelay) (roundFloat64 cfg.BackoffFactor)) (2 ^ 63) with
    h | h
  · exact Or.inl (cappedDelay_nonneg currentDelay cfg hcur hb hmax h)
  · right
    rw [cappedDelay_eq_min, durationOfFloat_out_of_range _ h]
    exact min_eq_left (le_trans (by decide) hmax)

/-- C7 as stated fails in five ways.  With a negative backoff factor (current delay 100ms,
factor -1, cap 150ms, jitter 0.5, draw 0.5) the capped delay is -100ms and the returned
delay -125ms lies below it.  With a capped delay that is not a `float64` (cap
`2 ^ 54 + 1`, current delay `2 ^ 55`, factor 1, jitter `2 ^ (-60)`, draw 0) the returned
delay `2 ^ 54` lies below the capped delay.  By rounding up (current delay `2 ^ 52`,
factor 1, cap `2 ^ 53`, jitter `3 * 2 ^ (-54)`, draw 0.75) the returned delay
`2 ^ 52 + 1` exceeds `c * (1 + f) = 2 ^ 52 + 0.75`.  When `c * (1 + f)` does not fit
`int64` (current delay and cap `2 ^ 53`, factor 1, jitter 2048, draw 0.5) the returned
delay is the smallest `int64`, below the capped delay.  And by the truncation of the
backed-off delay (current delay 1ns, factor 1.5, cap 10ns, jitter 0.5, draw 0) the
returned delay 1ns lies below `min(current * BackoffFactor, MaxDelay) = 1.5ns`. -/
theorem calculateNextDelay_outside_jitter_interval :
    ((0 : ℚ) ≤ (⟨3, 100 * Millisecond, 150 * Millisecond, -1, 1 / 2⟩ : Config).Jitter ∧
      (0 : Duration) ≤ 100 * Millisecond ∧
      (0 : Duration) ≤ (⟨3, 100 * Millisecond, 150 * Millisecond, -1, 1 / 2⟩ : Config).MaxDelay ∧
      (0 : ℚ) ≤ 1 / 2 ∧ (1 / 2 : ℚ) < 1 ∧
      cappedDelay (100 * Millisecond)
        ⟨3, 100 * Millisecond, 150 * Millisecond, -1, 1 / 2⟩ = -100000000 ∧
      calculateNextDelay (100 * Millisecond)
        ⟨3, 100 * Millisecond, 150 * Millisecond, -1, 1 / 2⟩ (1 / 2) = -125000000 ∧
      ¬ (cappedDelay (100 * Millisecond) ⟨3, 100 * Millisecond, 150 * Millisecond, -1, 1 / 2⟩ ≤
        calculateNextDelay (100 * Millisecond)
          ⟨3, 100 * Millisecond, 150 * Millisecond, -1, 1 / 2⟩ (1 / 2))) ∧
    (cappedDelay 36028797018963968
        ⟨3, 36028797018963968, 18014398509481985, 1, 1 / 1152921504606846976⟩ =
        18014398509481985 ∧
      calculateNextDelay 36028797018963968
        ⟨3, 36028797018963968, 18014398509481985, 1, 1 / 1152921504606846976⟩ 0 =
        18014398509481984) ∧
    (cappedDelay 4503599627370496
        ⟨3, 4503599627370496, 9007199254740992, 1, 3 / 18014398509481984⟩ =
        4503599627370496 ∧
      calculateNextDelay 4503599627370496
        ⟨3, 4503599627370496, 9007199254740992, 1, 3 / 18014398509481984⟩ (3 / 4) =
        4503599627370497 ∧
      ¬ ((4503599627370497 : ℚ) ≤ 4503599627370496 * (1 + 3 / 18014398509481984))) ∧
    (cappedDelay 9007199254740992 ⟨3, 9007199254740992, 9007199254740992, 1, 2048⟩ =
        9007199254740992 ∧
      calculateNextDelay 9007199254740992
        ⟨3, 9007199254740992, 9007199254740992, 1, 2048⟩ (1 / 2) = MinInt64 ∧
      MinInt64 < 9007199254740992) ∧
    (calculateNextDelay 1 ⟨3, 1, 10, 3 / 2, 1 / 2⟩ 0 = 1 ∧
      ¬ (min ((1 : ℚ) * (3 / 2)) 10 ≤ 1)) := by
  refine ⟨?_, ?_, ?_, ?_, ?_⟩
  · have hc : cappedDelay 100000000 ⟨3, 100000000, 150000000, -1, 1 / 2⟩ =
        (-100000000 : Int) := by
      rw [cappedDelay_exact _ _ (-1) (by norm_num) (by norm_num) (by norm_num) (by norm_num)]
      rfl
    have hn : calculateNextDelay 100000000 ⟨3, 100000000, 150000000, -1, 1 / 2⟩ (1 / 2) =
        -125000000 :=
      calculateNextDelay_half_half _ _ (-100000000) (-125000000) rfl hc (by norm_num)
        (by norm_num) (by norm_num)
    refine ⟨by norm_num, by decide, by decide, by norm_num, by norm_num, hc, hn, ?_⟩
    have hc' : cappedDelay (100 * Millisecond)
        ⟨3, 100 * Millisecond, 150 * Millisecond, -1, 1 / 2⟩ = (-100000000 : Int) := hc
    have hn' : calculateNextDelay (100 * Millisecond)
        ⟨3, 100 * Millisecond, 150 * Millisecond, -1, 1 / 2⟩ (1 / 2) = -125000000 := hn
    rw [hc', hn']
    decide
  · have hc : cappedDelay 36028797018963968
        ⟨3, 36028797018963968, 18014398509481985, 1, 1 / 1152921504606846976⟩ =
        (18014398509481985 : Int) := by
      rw [cappedDelay_of 36028797018963968 _ ((36028797018963968 : Int) : ℚ) 1
        ((36028797018963968 : Int) : ℚ) 36028797018963968
        (roundFloat64_eq _ _ 1 55 (by norm_num) (by norm_num) (by norm_num) rfl)
        (roundFloat64_eq _ _ 1 0 (by norm_num) (by norm_num) (by norm_num) rfl)
        (roundFloat64_eq _ _ 1 55 (by norm_num) (by norm_num) (by norm_num) (by norm_num))
        (durationOfFloat_intCast _ (by norm_num) (by norm_num))]
      rfl
    refine ⟨hc, ?_⟩
    rw [calculateNextDelay_of_jitter _ _ _ 18014398509481985 (1 / 1152921504606846976) 0 0 1
      ((18014398509481984 : Int) : ℚ) ((18014398509481984 : Int) : ℚ) hc
      (roundFloat64_eq _ _ 1 (-60) (by norm_num) (by norm_num) (by norm_num) rfl)
      (by norm_num) roundFloat64_zero
      (roundFloat64_eq _ _ 0 0 (by norm_num) (by norm_num) (by norm_num) (by norm_num))
      (roundFloat64_eq _ _ 1 0 (by norm_num) (by norm_num) (by norm_num) (by norm_num))
      float64OfInt_two_pow_54_add_one
      (roundFloat64_eq _ _ 1 54 (by norm_num) (by norm_num) (by norm_num) (by norm_num))]
    exact durationOfFloat_intCast _ (by norm_num) (by norm_num)
  · have hc : cappedDelay 4503599627370496
        ⟨3, 4503599627370496, 9007199254740992, 1, 3 / 18014398509481984⟩ =
        (4503599627370496 : Int) := by
      rw [cappedDelay_exact _ _ 1 (by norm_num) (by norm_num) (by norm_num) (by norm_num)]
      rfl
    refine ⟨hc, ?_, by norm_num⟩
    rw [calculateNextDelay_of_jitter _ _ _ 4503599627370496 (3 / 18014398509481984) (3 / 4)
      (9 / 72057594037927936) (4503599627370497 / 4503599627370496)
      ((4503599627370496 : Int) : ℚ) ((4503599627370497 : Int) : ℚ) hc
      (roundFloat64_eq _ _ 3 (-54) (by norm_num) (by norm_num) (by norm_num) rfl)
      (by norm_num)
      (roundFloat64_eq _ _ 3 (-2) (by norm_num) (by norm_num) (by norm_num) rfl)
      (roundFloat64_eq _ _ 9 (-56) (by norm_num) (by norm_num) (by norm_num) (by norm_num))
      (roundFloat64_near _ _ 4503599627370497 (-52) (by norm_num)
        (by norm_num [abs_of_pos]) (by norm_num [abs_of_pos]) (by norm_num) (by norm_num)
        (by norm_num))
      (float64OfInt_of_abs_le _ (by norm_num))
      (roundFloat64_eq _ _ 4503599627370497 0 (by norm_num) (by norm_num) (by norm_num)
        (by norm_num))]
    exact durationOfFloat_intCast _ (by norm_num) (by norm_num)
  · have hc : cappedDelay 9007199254740992 ⟨3, 9007199254740992, 9007199254740992, 1, 2048⟩ =
        (9007199254740992 : Int) := by
      rw [cappedDelay_exact _ _ 1 (by norm_num) (by norm_num) (by norm_num) (by norm_num)]
      rfl
    refine ⟨hc, ?_, by decide⟩
    rw [calculateNextDelay_of_jitter _ _ _ 9007199254740992 2048 (1 / 2) 1024 1025
      ((9007199254740992 : Int) : ℚ) 9232379236109516800 hc
      (roundFloat64_eq _ _ 1 11 (by norm_num) (by norm_num) (by norm_num) rfl)
      (by norm_num)
      (roundFloat64_eq _ _ 1 (-1) (by norm_num) (by norm_num) (by norm_num) rfl)
      (roundFloat64_eq _ _ 1 10 (by norm_num) (by norm_num) (by norm_num) (by norm_num))
      (roundFloat64_eq _ _ 1025 0 (by norm_num) (by norm_num) (by norm_num) (by norm_num))
      (float64OfInt_of_abs_le _ (by norm_num))
      (roundFloat64_eq _ _ 1025 53 (by norm_num) (by norm_num) (by norm_num) (by norm_num))]
    exact durationOfFloat_out_of_range _ (by norm_num)
  · have hd : durationOfFloat (3 / 2) = 1 := by
      rw [durationOfFloat_of_nonneg _ (by norm_num) (by norm_num)]
      exact Int.floor_eq_iff.mpr ⟨by norm_num, by norm_num⟩
    have hc : cappedDelay 1 ⟨3, 1, 10, 3 / 2, 1 / 2⟩ = (1 : Int) := by
      rw [cappedDelay_of 1 _ ((1 : Int) : ℚ) (3 / 2) (3 / 2) 1
        (float64OfInt_of_abs_le _ (by norm_num))
        (roundFloat64_eq _ _ 3 (-1) (by norm_num) (by norm_num) (by norm_num) rfl)
        (roundFloat64_eq _ _ 3 (-1) (by norm_num) (by norm_num) (by norm_num) (by norm_num))
        hd]
      rfl
    refine ⟨?_, by norm_num⟩
    rw [calculateNextDelay_of_jitter _ _ _ 1 (1 / 2) 0 0 1 ((1 : Int) : ℚ) ((1 : Int) : ℚ) hc
      (roundFloat64_eq _ _ 1 (-1) (by norm_num) (by norm_num) (by norm_num) rfl)
      (by norm_num) roundFloat64_zero
      (roundFloat64_eq _ _ 0 0 (by norm_num) (by norm_num) (by norm_num) (by norm_num))
      (roundFloat64_eq _ _ 1 0 (by norm_num) (by norm_num) (by norm_num) (by norm_num))
      (float64OfInt_of_abs_le _ (by norm_num))
      (roundFloat64_eq _ _ 1 0 (by norm_num) (by norm_num) (by norm_num) (by norm_num))]
    exact durationOfFloat_intCast _ (by norm_num) (by norm_num)

/-- C7, amended: for every jitter fraction `f ≥ 0`, every cap with
`0 ≤ MaxDelay ≤ 2 ^ 53` (nanoseconds) for which `MaxDelay * (1 + f)`, evaluated in
`float64`, stays below `2 ^ 63`, every backoff factor `≥ 0`, every non-negative current
delay and every draw in `[0,1)`, the delay returned by `calculateNextDelay` is at least
`c` and at most `time.Duration(float64(c) * (1 + f))`, where `c` is the capped delay as
the code computes it, `min(time.Duration(float64(current) * BackoffFactor), MaxDelay)`,
and the upper end is `c * (1 + f)` as `float64` evaluates it, which for `0 ≤ c ≤ MaxDelay`
is at most `c * (1 + f) * (1 + 2 ^ (-53)) ^ 2`, `f` being the `float64` value of
`Jitter`; and for an always-failing operation with `N` attempts, no cancellation and
draws in `[0,1)`, the sum of all waits of `Do` is at most
`(N - 1) * time.Duration(float64(MaxDelay) * (1 + f))`. -/
theorem jitter_interval_and_total_wait (cfg : Config) (hf : 0 ≤ cfg.Jitter)
    (hmax0 : 0 ≤ cfg.MaxDelay) (hmax : cfg.MaxDelay ≤ 2 ^ 53)
    (hov : float64Mul (float64OfInt cfg.MaxDelay) (float64Add 1 (roundFloat64 cfg.Jitter)) <
      2 ^ 63) :
    (∀ (currentDelay : Duration) (r : ℚ), 0 ≤ currentDelay → 0 ≤ cfg.BackoffFactor →
      0 ≤ r → r < 1 →
      cappedDelay currentDelay cfg ≤ calculateNextDelay currentDelay cfg r ∧
        calculateNextDelay currentDelay cfg r ≤
          jitterCeiling (cappedDelay currentDelay cfg) cfg) ∧
      (∀ c : Duration, 0 ≤ c → c ≤ cfg.MaxDelay →
        (jitterCeiling c cfg : ℚ) ≤
          (c : ℚ) * (1 + roundFloat64 cfg.Jitter) * (1 + 1 / 2 ^ 53) ^ 2) ∧
      (∀ (opts : List ConfigOption) (env : Env) (N : Nat),
        applyOptions defaultConfig opts = cfg → 0 < N → cfg.MaxAttempts = N →
        (∀ i, env.op i ≠ none) → (∀ i, env.ctxDone i = none) →
        (∀ i, 0 ≤ env.rand i ∧ env.rand i < 1) →
        (Do env opts).waits.sum ≤ ((N : Int) - 1) * jitterCeiling cfg.MaxDelay cfg) := by
  have hone : 1 ≤ float64Add 1 (roundFloat64 cfg.Jitter) := by
    have h := roundFloat64_mono (show (1 : ℚ) ≤ 1 + roundFloat64 cfg.Jitter by
      have := roundFloat64_nonneg hf
      linarith)
    rwa [roundFloat64_one] at h
  have hovc : ∀ c : Duration, c ≤ cfg.MaxDelay →
      float64Mul (float64OfInt c) (float64Add 1 (roundFloat64 cfg.Jitter)) < 2 ^ 63 :=
    fun c hcM => lt_of_le_of_lt
      (roundFloat64_mono (mul_le_mul_of_nonneg_right (float64OfInt_mono hcM) (by linarith)))
      hov
  refine ⟨?_, ?_, ?_⟩
  · intro currentDelay r hcur hb hr0 hr1
    have hcM := cappedDelay_le_MaxDelay currentDelay cfg
    rcases cappedDelay_nonneg_or_MinInt64 currentDelay cfg hcur hb hmax0 with hc0 | hmin
    · exact calculateNextDelay_in_jitter_interval currentDelay cfg r hc0 (le_trans hcM hmax)
        hf (hovc _ hcM) hr0 (le_of_lt hr1)
    · have hceil : jitterCeiling (cappedDelay currentDelay cfg) cfg = MinInt64 := by
        unfold jitterCeiling
        rw [hmin]
        exact jitter_step_MinInt64 _ hone
      have hcalc : calculateNextDelay currentDelay cfg r = MinInt64 := by
        rw [calculateNextDelay_eq]
        split_ifs with hj
        · rw [hmin]
          exact jitter_step_MinInt64 _ (jitterFactor_bounds cfg r hf hr0 (le_of_lt hr1)).1
        · exact hmin
      rw [hceil, hcalc, hmin]
      exact ⟨le_refl _, le_refl _⟩
  · intro c hc0 hcM
    exact jitterCeiling_le_real c cfg hc0 (le_trans hcM hmax) hf (hovc c hcM)
  · intro opts env N hopts hN hM hfail hctx hdraw
    obtain ⟨last, hlast⟩ := Option.ne_none_iff_exists'.mp (hfail (N - 1))
    have hrun := DoWith_all_fail cfg env N last hN hM (fun i _ => hfail i)
      (fun i _ => hctx i) hlast
    have hwaits : (Do env opts).waits =
        (failedRounds cfg env 0 cfg.InitialDelay (N - 1)).filterMap Event.delay? := by
      unfold Do
      rw [hopts, hrun, Run.waits_prepend]
      simp [Run.waits, Run.after, exhausted, Event.delay?]
    have hall := failedRounds_waits_forall cfg env
      (fun w => w ≤ jitterCeiling cfg.MaxDelay cfg)
      (fun d i => calculateNextDelay_le_jitterCeiling d cfg (env.rand i) hmax0 hmax hf hov
        (hdraw i).1 (le_of_lt (hdraw i).2))
      (N - 1) 0 cfg.InitialDelay
    have hsum := sum_le_length_mul _ _ hall
    rw [failedRounds_waits_length] at hsum
    rw [hwaits]
    have hcast : ((N - 1 : Nat) : Int) = (N : Int) - 1 := by omega
    rw [hcast] at hsum
    exact hsum

/-- The upper end of the jitter interval for the cap 150ms and the default jitter 0.1:
`float64` evaluates `150ms * (1 + 0.1)` to exactly 165ms. -/
theorem jitterCeiling_150ms_default :
    float64Mul (float64OfInt 150000000) (float64Add 1 (roundFloat64 (1 / 10))) = 165000000 ∧
      jitterCeiling 150000000 ⟨3, 100000000, 150000000, 2, 1 / 10⟩ = 165000000 := by
  have hJ : roundFloat64 (1 / 10) = 7205759403792794 / 72057594037927936 :=
    roundFloat64_near _ _ 7205759403792794 (-56) (by norm_num)
      (by norm_num [abs_of_pos]) (by norm_num [abs_of_pos]) (by norm_num) (by norm_num)
      (by norm_num)
  have hS : roundFloat64 (1 + 7205759403792794 / 72057594037927936) =
      4953959590107546 / 4503599627370496 :=
    roundFloat64_near _ _ 4953959590107546 (-52) (by norm_num)
      (by norm_num [abs_of_pos]) (by norm_num [abs_of_pos]) (by norm_num) (by norm_num)
      (by norm_num)
  have hP : roundFloat64 (((150000000 : Int) : ℚ) * (4953959590107546 / 4503599627370496)) =
      ((165000000 : Int) : ℚ) :=
    roundFloat64_near _ _ 5536481280000000 (-25) (by norm_num)
      (by norm_num [abs_of_pos]) (by norm_num [abs_of_pos]) (by norm_num) (by norm_num)
      (by norm_num)
  have hval : float64Mul (float64OfInt 150000000) (float64Add 1 (roundFloat64 (1 / 10))) =
      ((165000000 : Int) : ℚ) := by
    unfold float64Mul float64Add
    rw [hJ, hS, float64OfInt_of_abs_le 150000000 (by norm_num), hP]
  constructor
  · rw [hval]
    norm_num
  · unfold jitterCeiling
    have hj : (⟨3, 100000000, 150000000, 2, 1 / 10⟩ : Config).Jitter = 1 / 10 := rfl
    have hm : (⟨3, 100000000, 150000000, 2, 1 / 10⟩ : Config).MaxDelay = 150000000 := rfl
    rw [hj, hval]
    exact durationOfFloat_intCast _ (by norm_num) (by norm_num)

/-- C7 at `TestOptions/WithMaxDelay`: three attempts, initial delay 100ms, cap 150ms and
the default jitter 0.1 give a total wait of at most twice 165ms, which is below 500ms. -/
theorem jitter_interval_and_total_wait_witness :
    (Do (alwaysFailing "error" (1 / 2))
        [WithMaxAttempts 3, WithInitialDelay (100 * Millisecond),
          WithMaxDelay (150 * Millisecond)]).waits.sum ≤
        (((3 : Nat) : Int) - 1) * jitterCeiling 150000000 ⟨3, 100000000, 150000000, 2, 1 / 10⟩ ∧
      (((3 : Nat) : Int) - 1) * jitterCeiling 150000000 ⟨3, 100000000, 150000000, 2, 1 / 10⟩ <
        500 * Millisecond := by
  have h := (jitter_interval_and_total_wait
    ⟨3, 100000000, 150000000, 2, 1 / 10⟩ (by norm_num) (by decide) (by decide)
    (by
      have hv := jitterCeiling_150ms_default.1
      have hm : (⟨3, 100000000, 150000000, 2, 1 / 10⟩ : Config).MaxDelay = 150000000 := rfl
      have hj : (⟨3, 100000000, 150000000, 2, 1 / 10⟩ : Config).Jitter = 1 / 10 := rfl
      rw [hm, hj, hv]
      norm_num)).2.2
    [WithMaxAttempts 3, WithInitialDelay (100 * Millisecond), WithMaxDelay (150 * Millisecond)]
    (alwaysFailing "error" (1 / 2)) 3 rfl (by decide) rfl (fun _ => by simp [alwaysFailing])
    (fun _ => rfl) (fun _ => by norm_num [alwaysFailing])
  refine ⟨h, ?_⟩
  rw [jitterCeiling_150ms_default.2]
  decide

/-- C8: for every policy with `MaxAttempts = N > 0` and every sequence `errs` of errors
returned by `N` failing invocations, with no wait cancelled, `Do` returns an error whose
message is `"max retry attempts reached: "` followed by the message of the error of the
`N`-th invocation. -/
theorem Do_exhausted_message_is_last_error (N : Nat) (opts : List ConfigOption) (env : Env)
    (errs : Nat → GoError) (hN : 0 < N)
    (hcfg : (applyOptions defaultConfig opts).MaxAttempts = N)
    (hfail : ∀ i, i < N → env.op i = some (errs i))
    (hctx : ∀ i, i + 1 < N → env.ctxDone i = none) :
    ∃ e, (Do env opts).outcome = .returned (some e) ∧
      e.Error = "max retry attempts reached: " ++ (errs (N - 1)).Error := by
  have hrun := DoWith_all_fail (applyOptions defaultConfig opts) env N (errs (N - 1)) hN hcfg
    (fun i hi => by rw [hfail i hi]; simp) hctx (hfail (N - 1) (by omega))
  unfold Do
  rw [hrun]
  exact ⟨_, rfl, rfl⟩

/-- C8 with three attempts whose errors are `"error 0"`, `"error 1"`, `"error 2"`. -/
theorem Do_exhausted_message_is_last_error_witness :
    ∃ e, (Do numberedErrors [WithMaxAttempts 3]).outcome = .returned (some e) ∧
      e.Error = "max retry attempts reached: " ++
        (GoError.errorString ("error " ++ toString (3 - 1))).Error :=
  Do_exhausted_message_is_last_error 3 [WithMaxAttempts 3] numberedErrors
    (fun i => .errorString ("error " ++ toString i)) (by decide) rfl (fun _ _ => rfl)
    (fun _ _ => rfl)

/-- C9: the policy used by `Do` is the fixed default (5 attempts, 100ms, 30s, factor 2,
jitter 0.1) with the options applied left to right; each of the five options sets its own
field to its argument and leaves the other four unchanged; so for every list of options
each field of the policy is the argument of the last option targeting it, or the default
if there is none. -/
theorem Do_policy_is_default_with_overrides (specs : List OptionSpec) (env : Env) :
    defaultConfig = ⟨5, 100 * Millisecond, 30 * Second, 2, 1 / 10⟩ ∧
      Do env (specs.map OptionSpec.toOption) =
        DoWith (specs.foldl (fun cfg o => o.toOption cfg) defaultConfig) env ∧
      (∀ (c : Config) (n : Int),
        WithMaxAttempts n c = ⟨n, c.InitialDelay, c.MaxDelay, c.BackoffFactor, c.Jitter⟩) ∧
      (∀ (c : Config) (d : Duration),
        WithInitialDelay d c = ⟨c.MaxAttempts, d, c.MaxDelay, c.BackoffFactor, c.Jitter⟩) ∧
      (∀ (c : Config) (d : Duration),
        WithMaxDelay d c = ⟨c.MaxAttempts, c.InitialDelay, d, c.BackoffFactor, c.Jitter⟩) ∧
      (∀ (c : Config) (f : ℚ),
        WithBackoffFactor f c = ⟨c.MaxAttempts, c.InitialDelay, c.MaxDelay, f, c.Jitter⟩) ∧
      (∀ (c : Config) (j : ℚ),
        WithJitter j c = ⟨c.MaxAttempts, c.InitialDelay, c.MaxDelay, c.BackoffFactor, j⟩) ∧
      (applyOptions defaultConfig (specs.map OptionSpec.toOption)).MaxAttempts =
        (lastArg OptionSpec.maxAttempts? specs).getD 5 ∧
      (applyOptions defaultConfig (specs.map OptionSpec.toOption)).InitialDelay =
        (lastArg OptionSpec.initialDelay? specs).getD (100 * Millisecond) ∧
      (applyOptions defaultConfig (specs.map OptionSpec.toOption)).MaxDelay =
        (lastArg OptionSpec.maxDelay? specs).getD (30 * Second) ∧
      (applyOptions defaultConfig (specs.map OptionSpec.toOption)).BackoffFactor =
        (lastArg OptionSpec.backoffFactor? specs).getD 2 ∧
      (applyOptions defaultConfig (specs.map OptionSpec.toOption)).Jitter =
        (lastArg OptionSpec.jitter? specs).getD (1 / 10) := by
  refine ⟨rfl, ?_, fun _ _ => rfl, fun _ _ => rfl, fun _ _ => rfl, fun _ _ => rfl,
    fun _ _ => rfl, applyOptions_fields specs defaultConfig⟩
  unfold Do applyOptions
  rw [List.foldl_map]

/-- C10, the code at the failing input (three attempts, initial delay 100ms, jitter 0.5,
defaults otherwise, both draws 0.5, which lie in `[0,1)`): the two waits are 250ms and
625ms, and the second one is not below 600ms. -/
theorem Do_jitter_second_wait_not_below_600ms :
    ((0 : ℚ) ≤ 1 / 2 ∧ (1 / 2 : ℚ) < 1) ∧
      (Do (alwaysFailing "error" (1 / 2))
        [WithMaxAttempts 3, WithInitialDelay (100 * Millisecond), WithJitter (1 / 2)]).waits =
        [250 * Millisecond, 625 * Millisecond] ∧
      ¬ ((625 * Millisecond : Duration) < 600 * Millisecond) := by
  have hc1 : cappedDelay 100000000 ⟨3, 100000000, 30000000000, 2, 1 / 2⟩ =
      (200000000 : Int) := by
    rw [cappedDelay_exact _ _ 2 (by norm_num) (by norm_num) (by norm_num) (by norm_num)]
    rfl
  have h1 : calculateNextDelay 100000000 ⟨3, 100000000, 30000000000, 2, 1 / 2⟩ (1 / 2) =
      250000000 :=
    calculateNextDelay_half_half _ _ 200000000 250000000 rfl hc1 (by norm_num) (by norm_num)
      (by norm_num)
  have hc2 : cappedDelay 250000000 ⟨3, 100000000, 30000000000, 2, 1 / 2⟩ =
      (500000000 : Int) := by
    rw [cappedDelay_exact _ _ 2 (by norm_num) (by norm_num) (by norm_num) (by norm_num)]
    rfl
  have h2 : calculateNextDelay 250000000 ⟨3, 100000000, 30000000000, 2, 1 / 2⟩ (1 / 2) =
      625000000 :=
    calculateNextDelay_half_half _ _ 500000000 625000000 rfl hc2 (by norm_num) (by norm_num)
      (by norm_num)
  have hw : (Do (alwaysFailing "error" (1 / 2))
      [WithMaxAttempts 3, WithInitialDelay (100 * Millisecond), WithJitter (1 / 2)]).waits =
      [calculateNextDelay 100000000 ⟨3, 100000000, 30000000000, 2, 1 / 2⟩ (1 / 2),
        calculateNextDelay
          (calculateNextDelay 100000000 ⟨3, 100000000, 30000000000, 2, 1 / 2⟩ (1 / 2))
          ⟨3, 100000000, 30000000000, 2, 1 / 2⟩ (1 / 2)] := rfl
  refine ⟨by norm_num, ?_, by decide⟩
  rw [hw, h1, h2]
  rfl

/-! ## The claims, continued -/

/-- C11 as stated fails beyond `2 ^ 53`: with `BackoffFactor = 2 > 1`, `Jitter = 0`,
a cap of `2 ^ 62` and the current delay `2 ^ 54 + 1`, `float64(current)` is `2 ^ 54` and
`calculateNextDelay` returns `2 ^ 55`, which is not `BackoffFactor` times the current
delay, `2 ^ 55 + 2`, capped. -/
theorem calculateNextDelay_not_factor_times_current :
    (1 : ℚ) < (⟨3, 18014398509481985, 4611686018427387904, 2, 0⟩ : Config).BackoffFactor ∧
      (⟨3, 18014398509481985, 4611686018427387904, 2, 0⟩ : Config).Jitter = 0 ∧
      calculateNextDelay 18014398509481985
        ⟨3, 18014398509481985, 4611686018427387904, 2, 0⟩ 0 = 36028797018963968 ∧
      (36028797018963968 : Int) ≠ min (2 * 18014398509481985) 4611686018427387904 := by
  refine ⟨by norm_num, rfl, ?_, by decide⟩
  rw [calculateNextDelay_of_jitter_nonpos _ _ _ (by norm_num)]
  have hd : durationOfFloat (float64Mul (float64OfInt 18014398509481985)
      (roundFloat64
        (⟨3, 18014398509481985, 4611686018427387904, 2, 0⟩ : Config).BackoffFactor)) =
      36028797018963968 := by
    unfold float64Mul
    rw [float64OfInt_two_pow_54_add_one,
      roundFloat64_eq _ 2 1 1 (by norm_num) (by norm_num) (by norm_num) rfl,
      roundFloat64_eq _ ((36028797018963968 : Int) : ℚ) 1 55 (by norm_num) (by norm_num)
        (by norm_num) (by norm_num)]
    exact durationOfFloat_intCast _ (by norm_num) (by norm_num)
  rw [hd]
  rfl

/-- C11, amended: for `Jitter ≤ 0` (so for `Jitter = 0`, and whatever the factor is, in
particular for `BackoffFactor > 1`), `calculateNextDelay current cfg` equals the minimum
of `time.Duration(float64(current) * BackoffFactor)`, the product taken in `float64` and
converted, and `MaxDelay`, and never exceeds `MaxDelay`; in every run of `Do` each wait is
obtained in that way from the wait before it, and no wait exceeds `MaxDelay`; when the
factor is a `float64` (such as 2), the current delay has magnitude at most `2 ^ 53` and
`BackoffFactor` times the current delay is a whole number of nanoseconds of magnitude at
most `2 ^ 53`, a wait that stays within the cap is exactly `BackoffFactor` times the
previous one. -/
theorem calculateNextDelay_without_jitter (cfg : Config) (hj : cfg.Jitter ≤ 0) :
    (∀ (currentDelay : Duration) (r : ℚ),
      calculateNextDelay currentDelay cfg r =
          min (durationOfFloat
            (float64Mul (float64OfInt currentDelay) (roundFloat64 cfg.BackoffFactor)))
            cfg.MaxDelay ∧
        calculateNextDelay currentDelay cfg r ≤ cfg.MaxDelay) ∧
      (∀ (opts : List ConfigOption) (env : Env), applyOptions defaultConfig opts = cfg →
        List.Chain
            (fun (a b : Duration) =>
              b = min (durationOfFloat
                (float64Mul (float64OfInt a) (roundFloat64 cfg.BackoffFactor))) cfg.MaxDelay)
            cfg.InitialDelay (Do env opts).waits ∧
          ∀ w ∈ (Do env opts).waits, w ≤ cfg.MaxDelay) ∧
      (∀ (p : Int) (currentDelay : Duration) (r : ℚ), IsFloat64 cfg.BackoffFactor →
        |currentDelay| ≤ 2 ^ 53 → (currentDelay : ℚ) * cfg.BackoffFactor = p →
        |p| ≤ 2 ^ 53 → p ≤ cfg.MaxDelay →
        calculateNextDelay currentDelay cfg r = p) := by
  have hchain : ∀ (opts : List ConfigOption) (env : Env), applyOptions defaultConfig opts = cfg →
      List.Chain
        (fun (a b : Duration) =>
          b = min (durationOfFloat
            (float64Mul (float64OfInt a) (roundFloat64 cfg.BackoffFactor))) cfg.MaxDelay)
        cfg.InitialDelay (Do env opts).waits := by
    intro opts env hopts
    have h := doLoop_waits_chain cfg env (cfg.MaxAttempts.toNat + 1) 0 cfg.InitialDelay none
    unfold Do DoWith
    rw [hopts]
    refine List.Chain.imp ?_ h
    rintro a b ⟨i, rfl⟩
    exact calculateNextDelay_of_jitter_nonpos a cfg _ hj
  refine ⟨fun currentDelay r => ?_, fun opts env hopts => ⟨hchain opts env hopts, ?_⟩, ?_⟩
  · rw [calculateNextDelay_of_jitter_nonpos currentDelay cfg r hj]
    exact ⟨rfl, min_le_right _ _⟩
  · intro w hw
    have key : ∀ (l : List Duration) (a : Duration),
        List.Chain
          (fun (a b : Duration) =>
            b = min (durationOfFloat
              (float64Mul (float64OfInt a) (roundFloat64 cfg.BackoffFactor))) cfg.MaxDelay)
          a l → ∀ w ∈ l, w ≤ cfg.MaxDelay := by
      intro l
      induction l with
      | nil => intro a _ w hw; simp at hw
      | cons c l ih =>
        intro a hc w hw
        rw [List.chain_cons] at hc
        rcases List.mem_cons.mp hw with rfl | hw
        · rw [hc.1]; exact min_le_right _ _
        · exact ih c hc.2 w hw
    exact key _ _ (hchain opts env hopts) w hw
  · intro p currentDelay r hB hc53 hp hp53 hle
    rw [calculateNextDelay_of_jitter_nonpos currentDelay cfg r hj,
      backoff_exact_of_product currentDelay cfg p hB hc53 hp hp53]
    exact min_eq_left hle

/-- C11 at factor 2, no jitter, cap 10s: from 100ms the next delay is 200ms, the double. -/
theorem calculateNextDelay_without_jitter_witness :
    calculateNextDelay (100 * Millisecond)
      ⟨3, 100 * Millisecond, 10 * Second, 2, 0⟩ 0 = 200000000 :=
  (calculateNextDelay_without_jitter ⟨3, 100 * Millisecond, 10 * Second, 2, 0⟩
    (le_refl _)).2.2 200000000 (100 * Millisecond) 0
    ⟨1, 1, by norm_num, by norm_num, by norm_num, by norm_num⟩ (by decide)
    (by norm_num [Millisecond]) (by decide) (by decide)

/-- C12 as stated fails beyond `2 ^ 53`: with `BackoffFactor = 1`, `Jitter = 0` and
`InitialDelay = 2 ^ 54 + 1 ≤ MaxDelay = 2 ^ 55`, `calculateNextDelay` returns `2 ^ 54`
for `2 ^ 54 + 1`, and both waits of a three-attempt run of `Do` are `2 ^ 54`, not
`InitialDelay`. -/
theorem Do_delay_not_InitialDelay_beyond_float64 :
    calculateNextDelay 18014398509481985
        ⟨3, 18014398509481985, 36028797018963968, 1, 0⟩ 0 = 18014398509481984 ∧
      (Do (alwaysFailing "error" 0)
        [WithMaxAttempts 3, WithInitialDelay 18014398509481985,
          WithMaxDelay 36028797018963968, WithBackoffFactor 1, WithJitter 0]).waits =
        [18014398509481984, 18014398509481984] ∧
      (applyOptions defaultConfig
        [WithMaxAttempts 3, WithInitialDelay 18014398509481985,
          WithMaxDelay 36028797018963968, WithBackoffFactor 1, WithJitter 0]).InitialDelay ≤
        (applyOptions defaultConfig
          [WithMaxAttempts 3, WithInitialDelay 18014398509481985,
            WithMaxDelay 36028797018963968, WithBackoffFactor 1, WithJitter 0]).MaxDelay ∧
      (18014398509481984 : Duration) ≠
        (applyOptions defaultConfig
          [WithMaxAttempts 3, WithInitialDelay 18014398509481985,
            WithMaxDelay 36028797018963968, WithBackoffFactor 1, WithJitter 0]).InitialDelay := by
  have h1 : calculateNextDelay 18014398509481985
      ⟨3, 18014398509481985, 36028797018963968, 1, 0⟩ 0 = 18014398509481984 := by
    rw [calculateNextDelay_of_jitter_nonpos _ _ _ (by norm_num)]
    have hd : durationOfFloat (float64Mul (float64OfInt 18014398509481985)
        (roundFloat64
          (⟨3, 18014398509481985, 36028797018963968, 1, 0⟩ : Config).BackoffFactor)) =
        18014398509481984 := by
      unfold float64Mul
      rw [float64OfInt_two_pow_54_add_one,
        roundFloat64_eq _ 1 1 0 (by norm_num) (by norm_num) (by norm_num) rfl,
        roundFloat64_eq _ ((18014398509481984 : Int) : ℚ) 1 54 (by norm_num) (by norm_num)
          (by norm_num) (by norm_num)]
      exact durationOfFloat_intCast _ (by norm_num) (by norm_num)
    rw [hd]
    rfl
  have h2 : calculateNextDelay 18014398509481984
      ⟨3, 18014398509481985, 36028797018963968, 1, 0⟩ 0 = 18014398509481984 := by
    rw [calculateNextDelay_of_jitter_nonpos _ _ _ (by norm_num)]
    have hd : durationOfFloat (float64Mul (float64OfInt 18014398509481984)
        (roundFloat64
          (⟨3, 18014398509481985, 36028797018963968, 1, 0⟩ : Config).BackoffFactor)) =
        18014398509481984 := by
      unfold float64Mul float64OfInt
      rw [roundFloat64_eq _ ((18014398509481984 : Int) : ℚ) 1 54 (by norm_num) (by norm_num)
          (by norm_num) rfl,
        roundFloat64_eq _ 1 1 0 (by norm_num) (by norm_num) (by norm_num) rfl,
        roundFloat64_eq _ ((18014398509481984 : Int) : ℚ) 1 54 (by norm_num) (by norm_num)
          (by norm_num) (by norm_num)]
      exact durationOfFloat_intCast _ (by norm_num) (by norm_num)
    rw [hd]
    rfl
  have hw : (Do (alwaysFailing "error" 0)
      [WithMaxAttempts 3, WithInitialDelay 18014398509481985,
        WithMaxDelay 36028797018963968, WithBackoffFactor 1, WithJitter 0]).waits =
      [calculateNextDelay 18014398509481985
          ⟨3, 18014398509481985, 36028797018963968, 1, 0⟩ 0,
        calculateNextDelay
          (calculateNextDelay 18014398509481985
            ⟨3, 18014398509481985, 36028797018963968, 1, 0⟩ 0)
          ⟨3, 18014398509481985, 36028797018963968, 1, 0⟩ 0] := rfl
  refine ⟨h1, ?_, by decide, by decide⟩
  rw [hw, h1, h2]

/-- C12, amended: with `BackoffFactor = 1`, `Jitter = 0`, `InitialDelay ≤ MaxDelay` and
`InitialDelay` of magnitude at most `2 ^ 53` nanoseconds (so that `float64` holds it
exactly), `calculateNextDelay` returns a current delay of magnitude at most `2 ^ 53`
within the cap unchanged, every wait of every run of `Do` equals `InitialDelay`, and for
an always-failing operation with `N` attempts the waits are `N - 1` times
`InitialDelay`. -/
theorem Do_constant_delay (opts : List ConfigOption) (env : Env)
    (hb : (applyOptions defaultConfig opts).BackoffFactor = 1)
    (hj : (applyOptions defaultConfig opts).Jitter = 0)
    (hle : (applyOptions defaultConfig opts).InitialDelay ≤
      (applyOptions defaultConfig opts).MaxDelay)
    (h53 : |(applyOptions defaultConfig opts).InitialDelay| ≤ 2 ^ 53) :
    (∀ (currentDelay : Duration) (r : ℚ),
      currentDelay ≤ (applyOptions defaultConfig opts).MaxDelay → |currentDelay| ≤ 2 ^ 53 →
      calculateNextDelay currentDelay (applyOptions defaultConfig opts) r = currentDelay) ∧
      (∀ w ∈ (Do env opts).waits, w = (applyOptions defaultConfig opts).InitialDelay) ∧
      (∀ N : Nat, 0 < N → (applyOptions defaultConfig opts).MaxAttempts = N →
        (∀ i, env.op i ≠ none) → (∀ i, env.ctxDone i = none) →
        (Do env opts).waits =
          List.replicate (N - 1) (applyOptions defaultConfig opts).InitialDelay) := by
  have hall : ∀ w ∈ (Do env opts).waits, w = (applyOptions defaultConfig opts).InitialDelay := by
    have h := doLoop_waits_chain (applyOptions defaultConfig opts) env
      ((applyOptions defaultConfig opts).MaxAttempts.toNat + 1) 0
      (applyOptions defaultConfig opts).InitialDelay none
    refine chain_forall _ (fun w => w = (applyOptions defaultConfig opts).InitialDelay) ?_
      _ _ rfl h
    rintro x y hx ⟨i, rfl⟩
    rw [hx]
    exact calculateNextDelay_constant _ _ _ hb hj hle h53
  refine ⟨fun currentDelay r hc hc53 => calculateNextDelay_constant _ _ _ hb hj hc hc53,
    hall, ?_⟩
  intro N hN hM hfail hctx
  obtain ⟨last, hlast⟩ := Option.ne_none_iff_exists'.mp (hfail (N - 1))
  have hrun := DoWith_all_fail (applyOptions defaultConfig opts) env N last hN hM
    (fun i _ => hfail i) (fun i _ => hctx i) hlast
  have hlen : (Do env opts).waits.length = N - 1 := by
    unfold Do
    rw [hrun, Run.waits_prepend, List.length_append, failedRounds_waits_length]
    simp [Run.waits, Run.after, exhausted, Event.delay?]
  exact List.eq_replicate_iff.mpr ⟨hlen, hall⟩

/-- C12 with three attempts and a constant delay of 100ms: both waits are 100ms. -/
theorem Do_constant_delay_witness :
    (Do (alwaysFailing "error" 0) [WithMaxAttempts 3, WithBackoffFactor 1, WithJitter 0]).waits =
      List.replicate (3 - 1)
        (applyOptions defaultConfig
          [WithMaxAttempts 3, WithBackoffFactor 1, WithJitter 0]).InitialDelay :=
  (Do_constant_delay [WithMaxAttempts 3, WithBackoffFactor 1, WithJitter 0]
    (alwaysFailing "error" 0) rfl rfl (by decide) (by decide)).2.2 3 (by decide) rfl
    (fun _ => by simp [alwaysFailing]) (fun _ => rfl)

/-! ## Lemmas about the store -/

/-- The options write only the variable they are pointed at, and what they write there is
what the functional reading of the option computes. -/
theorem foldl_toProc (specs : List OptionSpec) :
    ∀ s : Store,
      (specs.map OptionSpec.toProc).foldl (fun s opt => opt .cfg s) s =
        ⟨s.defaultConfig, applyOptions s.cfg (specs.map OptionSpec.toOption)⟩ := by
  induction specs with
  | nil => intro s; rfl
  | cons o specs ih =>
    intro s
    rw [List.map_cons, List.foldl_cons, ih, List.map_cons, applyOptions_cons]
    rfl

theorem buildConfig_eq (specs : List OptionSpec) (s : Store) :
    buildConfig s (specs.map OptionSpec.toProc) =
      ⟨s.defaultConfig, applyOptions s.defaultConfig (specs.map OptionSpec.toOption)⟩ := by
  unfold buildConfig
  rw [foldl_toProc]
  rfl

/-! ## Lemmas about the shape of a run -/

theorem StopsLast_nil : StopsLast [] := by
  intro pre ev post h _
  cases pre <;> simp at h

theorem StopsLast_singleton (e : Event) : StopsLast [e] := by
  intro pre ev post h _
  cases pre with
  | nil =>
    simp only [List.nil_append, List.cons.injEq] at h
    exact h.2.symm
  | cons p pre => cases pre <;> simp at h

theorem StopsLast_cons (e : Event) (l : List Event) (he : e.isStop = false)
    (hl : StopsLast l) : StopsLast (e :: l) := by
  intro pre ev post h hstop
  cases pre with
  | nil =>
    simp only [List.nil_append, List.cons.injEq] at h
    rw [← h.1, he] at hstop
    cases hstop
  | cons p pre =>
    simp only [List.cons_append, List.cons.injEq] at h
    exact hl pre ev post h.2 hstop

/-- The loop makes at most as many invocations as there are attempts left. -/
theorem doLoop_invocations_le (cfg : Config) (env : Env) :
    ∀ (fuel attempt : Nat) (delay : Duration) (err : Option GoError),
      (doLoop cfg env fuel attempt delay err).invocations ≤
        (cfg.MaxAttempts - attempt).toNat := by
  intro fuel
  induction fuel with
  | zero => intro attempt delay err; simp [doLoop, Run.invocations]
  | succ fuel ih =>
    intro attempt delay err
    rcases doLoop_cases cfg env fuel attempt delay err with
      ⟨_, h⟩ | ⟨hlt, _, h⟩ | ⟨e, hlast, _, h⟩ | ⟨e, ce, hlt, _, _, h⟩ | ⟨e, hlt, _, _, h⟩
    · rw [h]; simp [Run.invocations, exhausted_trace]
    · rw [h]
      have h1 : (⟨.returned none, [.call none]⟩ : Run).invocations = 1 := rfl
      rw [h1]
      omega
    · rw [h, Run.invocations_after_call]
      have h0 : (exhausted (some e)).invocations = 0 := rfl
      rw [h0]
      omega
    · rw [h]
      have h1 : (⟨.returned (some ce),
          [.call (some e),
            .wait (calculateNextDelay delay cfg (env.rand attempt)) (some ce)]⟩ :
          Run).invocations = 1 := rfl
      rw [h1]
      omega
    · rw [h, Run.invocations_after_call, Run.invocations_after_wait]
      have := ih (attempt + 1) (calculateNextDelay delay cfg (env.rand attempt)) (some e)
      push_cast at this
      omega

/-- In the trace of the loop nothing follows a successful invocation or a cancelled wait. -/
theorem doLoop_stopsLast (cfg : Config) (env : Env) :
    ∀ (fuel attempt : Nat) (delay : Duration) (err : Option GoError),
      StopsLast (doLoop cfg env fuel attempt delay err).trace := by
  intro fuel
  induction fuel with
  | zero => intro attempt delay err; exact StopsLast_nil
  | succ fuel ih =>
    intro attempt delay err
    rcases doLoop_cases cfg env fuel attempt delay err with
      ⟨_, h⟩ | ⟨_, _, h⟩ | ⟨e, _, _, h⟩ | ⟨e, ce, _, _, _, h⟩ | ⟨e, _, _, _, h⟩
    · rw [h, exhausted_trace]; exact StopsLast_nil
    · rw [h]; exact StopsLast_singleton _
    · rw [h]; exact StopsLast_singleton _
    · rw [h]; exact StopsLast_cons _ _ rfl (StopsLast_singleton _)
    · rw [h]
      exact StopsLast_cons _ _ rfl (StopsLast_cons _ _ rfl (ih _ _ _))

/-- C13: for every ordered list of the five recognised options, building the policy in
two stores that both hold the defaults in `defaultConfig` (whatever their local `cfg`
held before) yields equal policies, namely the options folded over the defaults; the
variable `defaultConfig` holds the defaults afterwards, so a later call with no options
builds the defaults again and `Do` without options runs with them. -/
theorem buildConfig_deterministic_and_keeps_defaults (specs : List OptionSpec)
    (c₁ c₂ : Config) :
    (buildConfig ⟨defaultConfig, c₁⟩ (specs.map OptionSpec.toProc)).cfg =
        (buildConfig ⟨defaultConfig, c₂⟩ (specs.map OptionSpec.toProc)).cfg ∧
      (buildConfig ⟨defaultConfig, c₁⟩ (specs.map OptionSpec.toProc)).cfg =
        applyOptions defaultConfig (specs.map OptionSpec.toOption) ∧
      (buildConfig ⟨defaultConfig, c₁⟩ (specs.map OptionSpec.toProc)).defaultConfig =
        defaultConfig ∧
      (buildConfig (buildConfig ⟨defaultConfig, c₁⟩ (specs.map OptionSpec.toProc)) []).cfg =
        defaultConfig ∧
      (∀ env : Env, Do env [] = DoWith defaultConfig env) := by
  rw [buildConfig_eq, buildConfig_eq]
  exact ⟨rfl, rfl, rfl, rfl, fun _ => rfl⟩

/-- C14: for an always-failing operation with `MaxAttempts = N > 0` and no cancellation,
`Do` computes a delay and waits exactly `N - 1` times and the last event of the run is
the last invocation, with no wait after it; with `MaxAttempts = 1` and a failing first
invocation the run is that single invocation, whatever the cancellation signal is, and
the result is the attempts-exhausted error. -/
theorem Do_no_wait_after_last_attempt (opts : List ConfigOption) (env : Env) :
    (∀ N : Nat, 0 < N → (applyOptions defaultConfig opts).MaxAttempts = N →
      (∀ i, env.op i ≠ none) → (∀ i, env.ctxDone i = none) →
      (Do env opts).waits.length = N - 1 ∧
        ∃ last, (Do env opts).trace.getLast? = some (.call (some last))) ∧
      (∀ e : GoError, (applyOptions defaultConfig opts).MaxAttempts = 1 →
        env.op 0 = some e →
        Do env opts =
          ⟨.returned (some (.errorString (exhaustedTag ++ e.Error))), [.call (some e)]⟩) := by
  constructor
  · intro N hN hM hfail hctx
    obtain ⟨last, hlast⟩ := Option.ne_none_iff_exists'.mp (hfail (N - 1))
    have hrun := DoWith_all_fail (applyOptions defaultConfig opts) env N last hN hM
      (fun i _ => hfail i) (fun i _ => hctx i) hlast
    unfold Do
    rw [hrun]
    constructor
    · rw [Run.waits_prepend, List.length_append, failedRounds_waits_length]
      simp [Run.waits, Run.after, exhausted, Event.delay?]
    · refine ⟨last, ?_⟩
      simp only [Run.prepend, Run.after, exhausted]
      rw [List.getLast?_append]
      rfl
  · intro e hM hop
    have hrun := DoWith_all_fail (applyOptions defaultConfig opts) env 1 e (by decide)
      (by rw [hM]; rfl) (fun i hi => by
        have h0 : i = 0 := by omega
        rw [h0, hop]
        simp)
      (fun i hi => absurd hi (by omega)) hop
    unfold Do
    rw [hrun]
    rfl

/-- C14 with one attempt under a context that is already cancelled: one invocation, no
wait, and the attempts-exhausted error. -/
theorem Do_no_wait_after_last_attempt_witness :
    Do alreadyCancelled [WithMaxAttempts 1] =
      ⟨.returned (some (.errorString (exhaustedTag ++ (GoError.errorString "error").Error))),
        [.call (some (.errorString "error"))]⟩ :=
  (Do_no_wait_after_last_attempt [WithMaxAttempts 1] alreadyCancelled).2
    (.errorString "error") rfl rfl

/-- C15: for every policy, every behaviour of the operation and every cancellation
timing, `Do` makes at most `max(MaxAttempts, 0)` invocations, and in its run nothing at
all, so no invocation either, follows a successful invocation or a wait in which the
cancellation was received. -/
theorem Do_invocations_bounded_and_stops_early (opts : List ConfigOption) (env : Env) :
    ((Do env opts).invocations : Int) ≤ max (applyOptions defaultConfig opts).MaxAttempts 0 ∧
      (∀ (pre post : List Event) (ev : Event), (Do env opts).trace = pre ++ ev :: post →
        (ev = .call none ∨ ∃ d ce, ev = .wait d (some ce)) → post = []) := by
  constructor
  · have h := doLoop_invocations_le (applyOptions defaultConfig opts) env
      ((applyOptions defaultConfig opts).MaxAttempts.toNat + 1) 0
      (applyOptions defaultConfig opts).InitialDelay none
    have h2 : ((Do env opts).invocations : Int) ≤
        (((applyOptions defaultConfig opts).MaxAttempts - ((0 : Nat) : Int)).toNat : Int) := by
      exact_mod_cast h
    rw [Int.toNat_eq_max] at h2
    simpa using h2
  · intro pre post ev htrace hev
    have h := doLoop_stopsLast (applyOptions defaultConfig opts) env
      ((applyOptions defaultConfig opts).MaxAttempts.toNat + 1) 0
      (applyOptions defaultConfig opts).InitialDelay none
    refine h pre ev post htrace ?_
    rcases hev with rfl | ⟨d, ce, rfl⟩ <;> rfl

/-- C15 at the default policy with a run that is cancelled in its first wait: at most
five invocations are made, and nothing follows the cancelled wait, the second event. -/
theorem Do_invocations_bounded_and_stops_early_witness :
    ((Do (cancelledAt 0) []).invocations : Int) ≤
        max (applyOptions defaultConfig []).MaxAttempts 0 ∧
      (Do (cancelledAt 0) []).trace.drop 2 = [] :=
  ⟨(Do_invocations_bounded_and_stops_early [] (cancelledAt 0)).1,
    (Do_invocations_bounded_and_stops_early [] (cancelledAt 0)).2
      [.call (some (.errorString "slow operation"))] ((Do (cancelledAt 0) []).trace.drop 2)
      (.wait (calculateNextDelay (100 * Millisecond) defaultConfig 0) (some .canceled))
      rfl (Or.inr ⟨_, _, rfl⟩)⟩

end RetryIt
